import Mathlib

/-!
Verification of `src/pack-objects.c` (libgit2 packbuilder).

This file gives a shallow embedding of the packbuilder: the object
registry, the configuration reader, the delta engine (`try_delta`), the
single-threaded delta scheduler (`find_deltas`), the write-order planner
(`compute_write_order`) and the streaming pack writer (`write_pack`,
`write_one`, `write_object`), together with theorems about the frozen
claims C1–C10.

Machine integers are modelled as `Nat` with explicit wrap-around
(`% 2^32`, `% 2^64`) at the arithmetic sites where the C code can wrap.
External collaborators (object database, compressor, delta engine
proper, rolling hash, tag enumeration, sinks) are parameters gathered in
the `Ext` structure, exactly as the spec treats them: named only by
their contract.
-/

namespace PackObjects

/-- Modulus of a 32-bit unsigned integer. -/
def W32 : Nat := 2 ^ 32

/-- Modulus of a 64-bit unsigned integer (C `unsigned long` / `size_t` on LP64). -/
def W64 : Nat := 2 ^ 64

/-- C unsigned 32-bit subtraction `a - b` (wraps modulo `2^32`). -/
def sub32 (a b : Nat) : Nat := (a % W32 + (W32 - b % W32)) % W32

/-- C unsigned 64-bit subtraction `a - b` (wraps modulo `2^64`). -/
def sub64 (a b : Nat) : Nat := (a % W64 + (W64 - b % W64)) % W64

/-- Big-endian 4-byte encoding of a 32-bit value (`htonl` on a `uint32_t`). -/
def be32 (n : Nat) : List Nat :=
  [n / 2 ^ 24 % 256, n / 2 ^ 16 % 256, n / 2 ^ 8 % 256, n % 256]

/-- An object identifier: the 20 raw bytes of a `git_oid`. -/
abbrev Oid := List Nat

/-- Modelled from the spec: the whitespace predicate `git__isspace` lives
outside `src/`; the standard C `isspace` set is space, tab, LF, VT, FF, CR. -/
def git_isspace (c : Nat) : Bool :=
  c == 32 || c == 9 || c == 10 || c == 11 || c == 12 || c == 13

/-- Bytes of a C string: the list truncated at the first NUL. -/
def c_str (bytes : List Nat) : List Nat := bytes.takeWhile (fun c => c != 0)

/-- One folding step of `name_hash`: `hash = (hash >> 2) + (c << 24)` in
32-bit unsigned arithmetic. -/
def name_hash_step (h c : Nat) : Nat := (h / 4 + c * 2 ^ 24) % W32

/-- Fold of `name_hash` over a byte sequence (whitespace bytes skipped). -/
def name_hash_fold (bytes : List Nat) : Nat :=
  bytes.foldl (fun h c => if git_isspace c then h else name_hash_step h c) 0

/-- The `name_hash` function of `pack-objects.c` (lines 33–51).  A C string
is modelled as a byte list; the `while ((c = *name++) != 0)` loop stops at
the first NUL byte.  A null `name` hashes to 0. -/
def name_hash : Option (List Nat) → Nat
  | none => 0
  | some bytes => name_hash_fold (c_str bytes)

/-- The non-whitespace bytes of a name, up to the first NUL: exactly the
bytes that `name_hash` folds over. -/
def non_ws (bytes : List Nat) : List Nat :=
  (c_str bytes).filter (fun c => !(git_isspace c))

/-- Inner loop of `gen_pack_object_header` (lines 199–204): `c` is the
pending byte; while `size` is nonzero the pending byte is emitted with the
high bit set and the next 7 bits of `size` become pending. -/
def gen_pack_loop_go : Nat → Nat → Nat → List Nat
  | 0, c, _ => [c]
  | fuel + 1, c, size =>
    if size = 0 then [c]
    else Nat.lor c 128 :: gen_pack_loop_go fuel (size % 128) (size / 128)

/-- The loop with its fuel instantiated: each round divides `size` by
128, so `size` itself bounds the round count and the fuel is never
exhausted (a zero `size` stops immediately). -/
def gen_pack_loop (c size : Nat) : List Nat := gen_pack_loop_go size c size

/-- The `gen_pack_object_header` function (lines 183–207): the first byte
packs the type (3 bits at offset 4) with the low 4 bits of the size; each
further byte carries 7 more size bits, LSB first.  The returned list is the
byte sequence written into the caller's buffer; the C function returns its
length. -/
def gen_pack_object_header (size type : Nat) : List Nat :=
  gen_pack_loop ((type * 16 + size % 16) % 256) (size / 16)

/-! ## Object types -/

/-- `GIT_OBJ_COMMIT`. -/
def OBJ_COMMIT : Nat := 1
/-- `GIT_OBJ_TREE`. -/
def OBJ_TREE : Nat := 2
/-- `GIT_OBJ_BLOB`. -/
def OBJ_BLOB : Nat := 3
/-- `GIT_OBJ_TAG`. -/
def OBJ_TAG : Nat := 4
/-- `GIT_OBJ_REF_DELTA`. -/
def OBJ_REF_DELTA : Nat := 7

/-! ## Default configuration constants

The constants below live in `pack-objects.h`, which is not under `src/`.
Modelled from the spec (§6): `pack.deltaCacheSize` default 256 MiB,
`pack.deltaCacheLimit` default 1000, big-file threshold default 512 MiB,
window default 11 (so `GIT_PACK_WINDOW = 10`), depth default 50. -/

/-- Modelled from the spec: default global delta-cache budget (256 MiB). -/
def GIT_PACK_DELTA_CACHE_SIZE : Nat := 256 * 1024 * 1024

/-- Modelled from the spec: per-delta caching threshold default (1000). -/
def GIT_PACK_DELTA_CACHE_LIMIT : Nat := 1000

/-- Modelled from the spec: big-file threshold default (512 MiB). -/
def GIT_PACK_BIG_FILE_THRESHOLD : Nat := 512 * 1024 * 1024

/-- Modelled from the spec: `GIT_PACK_WINDOW` (the scheduler runs with
`GIT_PACK_WINDOW + 1 = 11` slots). -/
def GIT_PACK_WINDOW : Nat := 10

/-- Modelled from the spec: `GIT_PACK_DEPTH`, the default maximum delta
chain depth (50). -/
def GIT_PACK_DEPTH : Nat := 50

/-! ## Data model -/

/-- One registry entry (`git_pobject`).  Pointers into the object list are
modelled as indices: insertion order equals index order, which also models
the C address order on `object_list` used as the final sort tiebreak. -/
structure Pobject where
  id : Oid
  ty : Nat
  size : Nat
  hash : Nat
  /-- `po->delta`: index of the chosen delta base, `none` when stored full. -/
  delta : Option Nat
  delta_size : Nat
  /-- `po->delta_data`: cached delta payload bytes. -/
  delta_data : Option (List Nat)
  z_delta_size : Nat
  written : Bool
  recursing : Bool
  tagged : Bool
  filled : Bool
  delta_child : Option Nat
  delta_sibling : Option Nat
  no_try_delta : Bool
  deriving Repr, DecidableEq

/-- A zeroed entry as produced by `git_packbuilder_insert` (lines 158–165)
after `memset` and the field assignments. -/
def mk_pobject (oid : Oid) (ty size hash : Nat) : Pobject :=
  { id := oid, ty := ty, size := size, hash := hash,
    delta := none, delta_size := 0, delta_data := none, z_delta_size := 0,
    written := false, recursing := false, tagged := false, filled := false,
    delta_child := none, delta_sibling := none, no_try_delta := false }

/-- The packbuilder session state (`git_packbuilder`).  `object_list` is the
registry in insertion order; `nr_objects` is its length.  `hctx` is the
content of the session rolling-hash context `pb->ctx`: the bytes fed to it
so far.  The context is created once in `git_packbuilder_new` (line 97)
and never reset, so it persists across builds of the same session. -/
structure Packbuilder where
  object_list : List Pobject
  delta_cache_size : Nat
  max_delta_cache_size : Nat
  cache_max_small_delta_size : Nat
  big_file_threshold : Nat
  window_memory_limit : Nat
  nr_threads : Nat
  done : Bool
  nr_written : Nat
  hctx : List Nat
  deriving Repr, DecidableEq

/-- External collaborators, named only by their contract (spec §1):
the object database, the delta engine proper, the compressor, the rolling
hash, the delta-index builder, tag enumeration and the output sink. -/
structure Ext where
  /-- `git_odb_read`: type and payload by identifier; `none` is a read error. -/
  odb : Oid → Option (Nat × List Nat)
  /-- The delta engine (`git_delta` / `git_delta_create`): source bytes and
  target bytes to an edit script, or `none` when no delta exists. -/
  mk_delta : List Nat → List Nat → Option (List Nat)
  /-- `git__compress`: deflate a byte buffer. -/
  compress : List Nat → List Nat
  /-- `git_hash_final`: digest of all bytes fed to the rolling hash. -/
  hash_final : List Nat → List Nat
  /-- `git_delta_create_index` with `git_delta_sizeof_index`: `none` models
  the out-of-memory result (`try_delta` line 764), `some s` an index of
  memory size `s`. -/
  mk_index_size : List Nat → Option Nat
  /-- `git_tag_foreach`: the identifiers referenced by the repository tags. -/
  tags : List Oid
  /-- The sink callback: `true` when the chunk is accepted. -/
  sink : List Nat → Bool
  /-- `git_filebuf_open` outcome for `git_packbuilder_write`. -/
  file_open_ok : Bool
  /-- `git_filebuf_commit` outcome for `git_packbuilder_write`. -/
  file_commit_ok : Bool

/-- `git_delta_create` (used by `try_delta` line 769): the engine result is
kept only when it fits the `max_size` budget; a zero budget means
unlimited, as in `git_delta` called by `get_delta` with budget 0. -/
def mk_delta_budget (E : Ext) (src trg : List Nat) (max_size : Nat) :
    Option (List Nat) :=
  match E.mk_delta src trg with
  | none => none
  | some d => if max_size = 0 ∨ d.length ≤ max_size then some d else none

/-! ## Configuration (`packbuilder_config`, lines 53–79) -/

/-- Result of one `git_config_get_int64` lookup. -/
inductive ConfigVal where
  | found (v : Int)
  | notFound
  | err
  deriving Repr, DecidableEq

/-- A configuration store: lookup result by key. -/
abbrev Config := String → ConfigVal

/-- The `config_get` macro (lines 61–66): on `GIT_ENOTFOUND` the default is
used, any other error aborts. -/
def config_get (cfg : Config) (key : String) (dft : Int) : Except Unit Int :=
  match cfg key with
  | .found v => .ok v
  | .notFound => .ok dft
  | .err => .error ()

/-- The four fields read by `packbuilder_config`, in read order. -/
structure ConfigFields where
  max_delta_cache_size : Int
  cache_max_small_delta_size : Int
  big_file_threshold : Int
  window_memory_limit : Int
  deriving Repr, DecidableEq

/-- `packbuilder_config` (lines 53–79): four sequential lookups;
`pack.deltaCacheSize` is read twice, once into `max_delta_cache_size` and
once into `big_file_threshold`. -/
def packbuilder_config (cfg : Config) : Except Unit ConfigFields := do
  let a ← config_get cfg "pack.deltaCacheSize" (GIT_PACK_DELTA_CACHE_SIZE : Nat)
  let b ← config_get cfg "pack.deltaCacheLimit" (GIT_PACK_DELTA_CACHE_LIMIT : Nat)
  let c ← config_get cfg "pack.deltaCacheSize" (GIT_PACK_BIG_FILE_THRESHOLD : Nat)
  let d ← config_get cfg "pack.windowMemory" 0
  pure { max_delta_cache_size := a, cache_max_small_delta_size := b,
         big_file_threshold := c, window_memory_limit := d }

/-! ## Registry insertion (`git_packbuilder_insert`, lines 133–173) -/

/-- `git_packbuilder_insert`: no-op when the id is already present (the
`done` flag is then left alone); otherwise the object is read from the
database, a zeroed entry is appended, and `done` is cleared.  The returned
Bool is `true` on success (C return 0). -/
def git_packbuilder_insert (E : Ext) (pb : Packbuilder) (oid : Oid)
    (name : Option (List Nat)) : Packbuilder × Bool :=
  if pb.object_list.any (fun po => po.id = oid) then (pb, true)
  else
    match E.odb oid with
    | none => (pb, false)
    | some (ty, data) =>
      ({ pb with
         object_list :=
           pb.object_list ++ [mk_pobject oid ty data.length (name_hash name)],
         done := false }, true)

/-- A fresh session (`git_packbuilder_new`): empty registry, one thread,
configuration from the store.  Config values land in unsigned fields via
the `(int64_t *)&dst` cast; the model keeps their value modulo `2^64`. -/
def git_packbuilder_new (cfg : Config) : Except Unit Packbuilder := do
  let f ← packbuilder_config cfg
  pure { object_list := [], delta_cache_size := 0,
         max_delta_cache_size := (f.max_delta_cache_size % (W64 : Int)).toNat,
         cache_max_small_delta_size := (f.cache_max_small_delta_size % (W64 : Int)).toNat,
         big_file_threshold := (f.big_file_threshold % (W64 : Int)).toNat,
         window_memory_limit := (f.window_memory_limit % (W64 : Int)).toNat,
         nr_threads := 1, done := false, nr_written := 0, hctx := [] }

/-! ## Delta engine (`try_delta`, lines 674–807) -/

/-- `delta_cacheable` (lines 639–654). -/
def delta_cacheable (pb : Packbuilder) (src_size trg_size delta_size : Nat) : Bool :=
  if pb.max_delta_cache_size ≠ 0 ∧
      pb.delta_cache_size + delta_size > pb.max_delta_cache_size then false
  else if delta_size < pb.cache_max_small_delta_size then true
  else if src_size / 2 ^ 20 + trg_size / 2 ^ 21 > delta_size / 2 ^ 10 then true
  else false

/-- A sliding-window slot (`struct unpacked`, lines 26–31).  The delta
index pointer is modelled by its memory size (`some s` when built). -/
structure Unpacked where
  object : Option Nat
  data : Option (List Nat)
  index_size : Option Nat
  depth : Nat
  deriving Repr, DecidableEq

/-- An empty window slot (the array is `calloc`ed). -/
def empty_unpacked : Unpacked :=
  { object := none, data := none, index_size := none, depth := 0 }

/-- `free_unpacked` (lines 823–836): returns the freed memory (index size
plus, when a payload was loaded, the object's registered size) and the
cleared slot. -/
def free_unpacked (entries : List Pobject) (u : Unpacked) : Nat × Unpacked :=
  let freed := u.index_size.getD 0
  let freed := freed +
    (match u.data, u.object with
     | some _, some i => ((entries[i]?).map Pobject.size).getD 0
     | _, _ => 0)
  (freed, empty_unpacked)

/-- Model-level failure conditions of the scheduler.  `read_fail` and
`bad_length` are genuine C error returns; `oob` marks the point where the
C code would access `array[best_base]` with `best_base = -1` (an
out-of-bounds access, undefined behaviour); `no_fuel`/`bad_state` flag
walks the C code performs on dangling or cyclic structures; `threads`
marks the threaded path, which this embedding does not model. -/
inductive FdErr where
  | oob
  | read_fail
  | bad_length
  | bad_state
  | no_fuel
  | threads
  deriving Repr, DecidableEq

/-- Whether a scheduler failure is a model sentinel (C undefined or
unmodelled behaviour) rather than an ordinary C error return. -/
def fd_err_is_ub : FdErr → Bool
  | .oob | .no_fuel | .bad_state | .threads => true
  | .read_fail | .bad_length => false

/-- Result of `try_delta`: the possibly updated builder, target and source
slots, memory accounting, and the `*ret` out-parameter. -/
structure TryDeltaOut where
  pb : Packbuilder
  trg : Unpacked
  src : Unpacked
  mem : Nat
  ret : Int
  deriving Repr, DecidableEq

/-- Payload-loading and acceptance phase of `try_delta` (lines 722–806),
reached after all size/depth preconditions pass. -/
def try_delta_accept (E : Ext) (pb : Packbuilder) (trg src : Unpacked)
    (ti si : Nat) (trg_object src_object : Pobject)
    (max_size trg_size src_size : Nat) (mem : Nat) :
    Except FdErr TryDeltaOut := do
  -- load the target payload if not already done (lines 723–741)
  let (trg, mem) ←
    match trg.data with
    | some _ => pure (trg, mem)
    | none =>
      match E.odb trg_object.id with
      | none => throw FdErr.read_fail
      | some (_, data) =>
        if data.length ≠ trg_size then throw FdErr.bad_length
        else pure ({ trg with data := some data }, (mem + data.length) % W64)
  -- load the source payload if not already done (lines 742–760)
  let (src, mem) ←
    match src.data with
    | some _ => pure (src, mem)
    | none =>
      match E.odb src_object.id with
      | none => throw FdErr.read_fail
      | some (_, data) =>
        if data.length ≠ src_size then throw FdErr.bad_length
        else pure ({ src with data := some data }, (mem + data.length) % W64)
  let some trg_data := trg.data | throw FdErr.bad_state
  let some src_data := src.data | throw FdErr.bad_state
  -- build the source delta index once, lazily (lines 761–767)
  let (src, mem) ←
    match src.index_size with
    | some _ => pure (src, mem)
    | none =>
      match E.mk_index_size src_data with
      | none => return ⟨pb, trg, src, mem, 0⟩  -- suboptimal pack: out of memory
      | some isz =>
        pure ({ src with index_size := some isz }, (mem + isz) % W64)
  -- the delta attempt itself (lines 769–772)
  match mk_delta_budget E src_data trg_data max_size with
  | none => return ⟨pb, trg, src, mem, 0⟩
  | some delta_buf =>
    let delta_size := delta_buf.length
    -- prefer only shallower same-sized deltas (lines 774–781)
    if trg_object.delta.isSome ∧ delta_size = trg_object.delta_size ∧
        src.depth + 1 ≥ trg.depth then
      return ⟨pb, trg, src, mem, 0⟩
    -- drop a previously cached delta (lines 783–788)
    let (pb, trg_object) :=
      match trg_object.delta_data with
      | some _ =>
        ({ pb with delta_cache_size := sub64 pb.delta_cache_size trg_object.delta_size },
         { trg_object with delta_data := none })
      | none => (pb, trg_object)
    -- cache the new delta when admissible (lines 789–799)
    let (pb, trg_object) :=
      if delta_cacheable pb src_size trg_size delta_size then
        ({ pb with delta_cache_size := (pb.delta_cache_size + delta_size) % W64 },
         { trg_object with delta_data := some delta_buf })
      else (pb, trg_object)
    -- record the choice (lines 801–806)
    let trg_object := { trg_object with delta := some si, delta_size := delta_size }
    let pb := { pb with object_list := pb.object_list.set ti trg_object }
    return ⟨pb, { trg with depth := src.depth + 1 }, src, mem, 1⟩

/-- The `try_delta` function (lines 674–807).  `max_depth` is the caller's
depth budget (an `unsigned int`); `mem` models `*mem_usage`.  All size
arithmetic is C `unsigned long` (64-bit wrap-around), depth arithmetic is
`unsigned int` (32-bit). -/
def try_delta (E : Ext) (pb : Packbuilder) (trg src : Unpacked)
    (max_depth : Nat) (mem : Nat) : Except FdErr TryDeltaOut :=
  match trg.object, src.object with
  | some ti, some si =>
    match pb.object_list[ti]?, pb.object_list[si]? with
    | some trg_object, some src_object =>
      -- don't bother doing diffs between different types (lines 687–690)
      if trg_object.ty ≠ src_object.ty then .ok ⟨pb, trg, src, mem, -1⟩
      -- let's not bust the allowed depth (lines 696–698)
      else if src.depth ≥ max_depth then .ok ⟨pb, trg, src, mem, 0⟩
      else
        -- size filtering heuristics (lines 700–720)
        let trg_size := trg_object.size % W64
        let ms_rd :=
          match trg_object.delta with
          | none => (sub64 (trg_size / 2) 20, 1)
          | some _ => (trg_object.delta_size % W64, trg.depth % W32)
        let d1 := sub32 max_depth src.depth
        let d2 := (sub32 max_depth ms_rd.2 + 1) % W32
        -- when d2 = 0 the C division is undefined; Nat division yields 0
        let max_size := ms_rd.1 * d1 % W64 / d2
        if max_size = 0 then .ok ⟨pb, trg, src, mem, 0⟩
        else
          let src_size := src_object.size % W64
          let sizediff := if src_size < trg_size then trg_size - src_size else 0
          if sizediff ≥ max_size then .ok ⟨pb, trg, src, mem, 0⟩
          else if trg_size < src_size / 32 then .ok ⟨pb, trg, src, mem, 0⟩
          else try_delta_accept E pb trg src ti si trg_object src_object
                 max_size trg_size src_size mem
    | _, _ => .error FdErr.bad_state
  | _, _ => .error FdErr.bad_state

/-! ## Delta scheduler (`find_deltas`, lines 838–987) -/

/-- Sibling-chain walk of `check_delta_limit` (lines 809–821), fuelled:
`go fuel child n m` is the running maximum `m` over the chain starting at
`child`, each child contributing its own subtree maximum at depth `n+1`. -/
def check_delta_limit_go (entries : List Pobject) :
    Nat → Option Nat → Nat → Nat → Option Nat
  | 0, _, _, _ => none
  | _ + 1, none, _, m => some m
  | fuel + 1, some c, n, m =>
    match entries[c]? with
    | none => none
    | some cpo =>
      match check_delta_limit_go entries fuel cpo.delta_child (n + 1) (n + 1) with
      | none => none
      | some cres =>
        check_delta_limit_go entries fuel cpo.delta_sibling n (max m cres)

/-- `check_delta_limit` (lines 809–821): the maximum depth reached in the
delta-child subtree of entry `i`, starting the count at `n`. -/
def check_delta_limit (fuel : Nat) (entries : List Pobject) (i n : Nat) :
    Option Nat :=
  match entries[i]? with
  | none => none
  | some po => check_delta_limit_go entries fuel po.delta_child n n

/-- State of a `find_deltas` run: the builder, the circular slot array,
the write cursor `idx`, the occupied count and `mem_usage`. -/
structure FdState where
  pb : Packbuilder
  slots : List Unpacked
  aidx : Nat
  count : Nat
  mem : Nat
  deriving Repr, DecidableEq

/-- Window-memory eviction loop (lines 871–877), recursing on the slot
count: evict the tail slot until the memory fits or one slot remains. -/
def fd_evict (window : Nat) : Nat → FdState → FdState
  | 0, st => st
  | k + 1, st =>
    if st.pb.window_memory_limit ≠ 0 ∧ st.mem > st.pb.window_memory_limit ∧
        st.count > 1 then
      let tail := (st.aidx + window - st.count) % window
      match st.slots[tail]? with
      | none => st
      | some u =>
        let fu := free_unpacked st.pb.object_list u
        fd_evict window k
          { st with slots := st.slots.set tail fu.2,
                    mem := sub64 st.mem fu.1, count := st.count - 1 }
    else st

/-- Shift loop of the best-base rotation (lines 957–967), after the swap
slot has been read: `go dist dst slots` runs `while (dist--)`. -/
def fd_rotate_go (window : Nat) (swap : Unpacked) :
    Nat → Nat → List Unpacked → List Unpacked
  | 0, dst, slots => slots.set dst swap
  | d + 1, dst, slots =>
    let s := (dst + 1) % window
    fd_rotate_go window swap d s (slots.set dst ((slots[s]?).getD empty_unpacked))

/-- Best-base window rotation (lines 957–967) for a valid `best_base`. -/
def fd_rotate (window aidx bb : Nat) (slots : List Unpacked) : List Unpacked :=
  match slots[bb]? with
  | none => slots
  | some swap => fd_rotate_go window swap ((window + aidx - bb) % window) bb slots

/-- The inner window search (lines 891–910): `j` counts down from
`window - 1`; the walk stops at the first empty slot, a type mismatch
(`ret < 0`) terminates it, and a success records the slot as `best_base`.
Returns the updated state, the best base, and an error if one occurred. -/
def window_search (E : Ext) (window md : Nat) :
    Nat → FdState → Option Nat → FdState × Option Nat × Option FdErr
  | 0, st, bb => (st, bb, none)
  | j + 1, st, bb =>
    let other := (st.aidx + (j + 1)) % window
    match st.slots[other]? with
    | none => (st, bb, some FdErr.bad_state)
    | some m =>
      if m.object.isNone then (st, bb, none)
      else
        let n := (st.slots[st.aidx]?).getD empty_unpacked
        match try_delta E st.pb n m md st.mem with
        | .error e => (st, bb, some e)
        | .ok out =>
          let st' := { st with
            pb := out.pb
            mem := out.mem
            slots := (st.slots.set st.aidx out.trg).set other out.src }
          if out.ret < 0 then (st', bb, none)
          else if out.ret > 0 then window_search E window md j st' (some other)
          else window_search E window md j st' bb

/-- Advance of the window cursor (lines 969–974): `idx++` modulo the
window, `count` saturating one below the window size. -/
def fd_advance (window : Nat) (st : FdState) : FdState :=
  { st with aidx := (st.aidx + 1) % window,
            count := if st.count + 1 < window then st.count + 1 else st.count }

/-- The body of one `find_deltas` iteration after the slot has been
reclaimed and the depth budget `md` computed: window search, immediate
recompression of a cached delta (lines 926–942), depth-based eviction
(lines 944–950, the `continue` path that skips the cursor advance), and
the best-base rotation.  Returns the new state, whether the cursor
advances, and an error if one occurred. -/
def find_deltas_step (E : Ext) (window : Nat) (oi md : Nat) (st : FdState) :
    FdState × Bool × Option FdErr :=
  match window_search E window md (window - 1) st none with
  | (st1, _, some e) => (st1, true, some e)
  | (st1, bb, none) =>
    match st1.pb.object_list[oi]? with
    | none => (st1, true, some FdErr.bad_state)
    | some po =>
      let st2 :=
        match po.delta_data with
        | none => st1
        | some d =>
          let z := E.compress (d.take po.delta_size)
          let po' := { po with delta_data := some z, z_delta_size := z.length }
          { st1 with pb :=
              { st1.pb with
                object_list := st1.pb.object_list.set oi po',
                delta_cache_size :=
                  (sub64 st1.pb.delta_cache_size po.delta_size + z.length) % W64 } }
      let nslot := (st2.slots[st2.aidx]?).getD empty_unpacked
      if po.delta.isSome ∧ md ≤ nslot.depth then
        (st2, false, none)  -- `continue`: evict by not advancing the cursor
      else if po.delta.isSome then
        match bb with
        | none => (st2, true, some FdErr.oob)  -- array[best_base], best_base = -1
        | some b => ({ st2 with slots := fd_rotate window st2.aidx b st2.slots },
                     true, none)
      else (st2, true, none)

/-- Main loop of `find_deltas` (lines 853–975) over the worklist. -/
def find_deltas_go (E : Ext) (window depth : Nat) :
    List Nat → FdState → FdState × Option FdErr
  | [], st => (st, none)
  | oi :: rest, st =>
    let n0 := (st.slots[st.aidx]?).getD empty_unpacked
    let fu := free_unpacked st.pb.object_list n0
    let st := { st with slots := st.slots.set st.aidx { fu.2 with object := some oi },
                        mem := sub64 st.mem fu.1 }
    let st := fd_evict window st.count st
    match st.pb.object_list[oi]? with
    | none => (st, some FdErr.bad_state)
    | some po =>
      let mdRes : Except FdErr (Option Nat) :=
        if po.delta_child.isSome then
          match check_delta_limit (st.pb.object_list.length + 1)
              st.pb.object_list oi 0 with
          | none => .error FdErr.no_fuel
          | some c =>
            let md := sub32 depth c
            if md = 0 then .ok none else .ok (some md)
        else .ok (some (depth % W32))
      match mdRes with
      | .error e => (st, some e)
      | .ok none => find_deltas_go E window depth rest (fd_advance window st)
      | .ok (some md) =>
        match find_deltas_step E window oi md st with
        | (st', _, some e) => (st', some e)
        | (st', adv, none) =>
          find_deltas_go E window depth rest
            (if adv then fd_advance window st' else st')

/-- `find_deltas` (lines 838–987), single worker over a worklist of entry
indices. -/
def find_deltas (E : Ext) (pb : Packbuilder) (list : List Nat)
    (window depth : Nat) : Packbuilder × Option FdErr :=
  let st0 : FdState :=
    { pb := pb, slots := List.replicate window empty_unpacked,
      aidx := 0, count := 0, mem := 0 }
  let r := find_deltas_go E window depth list st0
  (r.1.pb, r.2)

/-- `ll_find_deltas` (lines 1058–1193).  With one thread the C code calls
`find_deltas` and returns 0 unconditionally, discarding its result; any
other thread count takes the threaded path, which this embedding does not
model (sentinel `threads`).  Model sentinels (undefined behaviour) are
surfaced; genuine C error returns of `find_deltas` are swallowed exactly
as the C code swallows them. -/
def ll_find_deltas (E : Ext) (pb : Packbuilder) (list : List Nat)
    (window depth : Nat) : Packbuilder × Option FdErr :=
  if pb.nr_threads = 1 then
    let r := find_deltas E pb list window depth
    match r.2 with
    | some e => if fd_err_is_ub e then (r.1, some e) else (r.1, none)
    | none => (r.1, none)
  else (pb, some FdErr.threads)

/-! ## Pack preparation (`prepare_pack`, lines 1199–1249) -/

/-- `get_object_details` (lines 1199–1209): entries larger than the
big-file threshold are excluded from delta attempts. -/
def get_object_details (pb : Packbuilder) : Packbuilder :=
  { pb with object_list := pb.object_list.map (fun po =>
      if pb.big_file_threshold < po.size then { po with no_try_delta := true }
      else po) }

/-- The `type_size_sort` comparator (lines 611–637) over entry indices:
descending by type, then name hash, then size; the final address
comparison is the index comparison (entries are stored by value in
insertion order). -/
def type_size_sort (entries : List Pobject) (a b : Nat) : Int :=
  match entries[a]?, entries[b]? with
  | some pa, some pb' =>
    if pa.ty > pb'.ty then -1
    else if pa.ty < pb'.ty then 1
    else if pa.hash > pb'.hash then -1
    else if pa.hash < pb'.hash then 1
    else if pa.size > pb'.size then -1
    else if pa.size < pb'.size then 1
    else if a < b then -1 else if a > b then 1 else 0
  | _, _ => 0

/-- The scratch candidate list of `prepare_pack` (lines 1224–1234): the
indices of the entries with size at least 50 and `no_try_delta` unset, in
insertion order. -/
def prepare_delta_list (pb : Packbuilder) : List Nat :=
  (List.range pb.object_list.length).filter (fun i =>
    match pb.object_list[i]? with
    | none => false
    | some po => decide (50 ≤ po.size) && !po.no_try_delta)

/-- `git__tsort` with `type_size_sort` (line 1237).  The comparator is a
total strict order on distinct indices, so every comparison sort produces
the same list; insertion sort realises it. -/
def sort_delta_list (entries : List Pobject) (dl : List Nat) : List Nat :=
  dl.insertionSort (fun a b => type_size_sort entries a b ≤ 0)

/-- `prepare_pack` (lines 1211–1249): short-circuit on `done` or an empty
registry, compute object details, build and sort the candidate list, run
the delta search, set `done`.  The Bool is `true` on success (C return 0);
on failure the partially mutated builder is returned, as the C code
mutates it through a pointer. -/
def prepare_pack (E : Ext) (pb : Packbuilder) : Packbuilder × Bool :=
  if pb.object_list.length = 0 ∨ pb.done then (pb, true)
  else
    let pb1 := get_object_details pb
    let dl := prepare_delta_list pb1
    if 1 < dl.length then
      let r := ll_find_deltas E pb1 (sort_delta_list pb1.object_list dl)
        (GIT_PACK_WINDOW + 1) GIT_PACK_DEPTH
      match r.2 with
      | some _ => (r.1, false)
      | none => ({ r.1 with done := true }, true)
    else ({ pb1 with done := true }, true)

/-! ## Write-order planner (`compute_write_order`, lines 434–525) -/

/-- `add_to_write_order` (lines 353–360): idempotent append guarded by the
`filled` flag.  `none` models the C code dereferencing a pointer outside
the registry. -/
def add_to_write_order (wo : List Nat) (entries : List Pobject) (i : Nat) :
    Option (List Nat × List Pobject) :=
  match entries[i]? with
  | none => none
  | some po =>
    if po.filled then some (wo, entries)
    else some (wo ++ [i], entries.set i { po with filled := true })

/-- The sibling `for` loop of `add_descendants_to_write_order`
(lines 370–374): add every entry along a `delta_sibling` chain. -/
def add_sibling_walk :
    Nat → (List Nat × List Pobject) → Option Nat → Option (List Nat × List Pobject)
  | _, st, none => some st
  | 0, _, some _ => none
  | fuel + 1, st, some s =>
    match add_to_write_order st.1 st.2 s with
    | none => none
    | some st' => add_sibling_walk fuel st' (((st'.2[s]?).map Pobject.delta_sibling).getD none)

/-- The parent climb of `add_descendants_to_write_order` (lines 388–393):
starting from a node (already moved to `po->delta`), keep moving to the
parent while the node exists and has no sibling.  Returns `some none` when
the walk reaches the root's parent (null), `some (some j)` at the first
node with a sibling, `none` on fuel exhaustion or a dangling link. -/
def climb_walk (entries : List Pobject) : Nat → Option Nat → Option (Option Nat)
  | 0, _ => none
  | _ + 1, none => some none
  | fuel + 1, some i =>
    match entries[i]? with
    | none => none
    | some po =>
      if po.delta_sibling.isSome then some (some i)
      else climb_walk entries fuel po.delta

/-- `add_descendants_to_write_order` (lines 362–402): pre-order walk of a
delta family.  `addOrd` models the `add_to_order` flag. -/
def add_descendants_to_write_order :
    Nat → (List Nat × List Pobject) → Nat → Bool → Option (List Nat × List Pobject)
  | 0, _, _, _ => none
  | fuel + 1, st, i, addOrd =>
    match st.2[i]? with
    | none => none
    | some po0 =>
      let stepped :=
        if addOrd then
          match add_to_write_order st.1 st.2 i with
          | none => none
          | some st1 => add_sibling_walk fuel st1 po0.delta_sibling
        else some st
      match stepped with
      | none => none
      | some st =>
        match po0.delta_child with
        | some c => add_descendants_to_write_order fuel st c true
        | none =>
          match po0.delta_sibling with
          | some s => add_descendants_to_write_order fuel st s false
          | none =>
            match climb_walk st.2 fuel po0.delta with
            | none => none
            | some none => some st
            | some (some j) =>
              match (st.2[j]?).bind Pobject.delta_sibling with
              | none => none
              | some s => add_descendants_to_write_order fuel st s false

/-- The root walk of `add_family_to_write_order` (lines 409–410). -/
def find_root (entries : List Pobject) : Nat → Nat → Option Nat
  | 0, _ => none
  | fuel + 1, i =>
    match entries[i]? with
    | none => none
    | some po =>
      match po.delta with
      | none => some i
      | some b => find_root entries fuel b

/-- `add_family_to_write_order` (lines 404–412). -/
def add_family_to_write_order (fuel : Nat) (st : List Nat × List Pobject)
    (i : Nat) : Option (List Nat × List Pobject) :=
  match find_root st.2 fuel i with
  | none => none
  | some root => add_descendants_to_write_order fuel st root true

/-- Flag reset of `compute_write_order` (lines 440–446). -/
def cwo_reset (entries : List Pobject) : List Pobject :=
  entries.map fun po =>
    { po with tagged := false, filled := false,
              delta_child := none, delta_sibling := none }

/-- One step of the forest construction for index `i` (lines 453–460):
`po->delta_sibling = po->delta->delta_child; po->delta->delta_child = po`,
performed sequentially (the two reads and writes in C order). -/
def cwo_forest_step (es : List Pobject) (i : Nat) : Option (List Pobject) :=
  match es[i]? with
  | none => none
  | some po =>
    match po.delta with
    | none => some es
    | some b =>
      match es[b]? with
      | none => none
      | some bpo =>
        let es1 := es.set i { po with delta_sibling := bpo.delta_child }
        match es1[b]? with
        | none => none
        | some bpo1 => some (es1.set b { bpo1 with delta_child := some i })

/-- The loop of the forest construction over a list of indices. -/
def cwo_forest_go : List Nat → List Pobject → Option (List Pobject)
  | [], es => some es
  | i :: rest, es =>
    match cwo_forest_step es i with
    | none => none
    | some es' => cwo_forest_go rest es'

/-- The reverse-order forest construction (lines 448–460): each entry with
a delta is prepended to its base's child list, so siblings end up in
original recency order. -/
def cwo_forest (entries : List Pobject) : Option (List Pobject) :=
  cwo_forest_go (List.range entries.length).reverse entries

/-- One tag mark (`cb_tag_foreach`, lines 414–432): look up the tag's
referent in the registry and set `tagged`; unregistered referents are
ignored. -/
def cwo_mark_step (es : List Pobject) (t : Oid) : List Pobject :=
  match es.findIdx? (fun po => decide (po.id = t)) with
  | none => es
  | some i =>
    match es[i]? with
    | none => es
    | some po => es.set i { po with tagged := true }

/-- The tag marking pass (`git_tag_foreach`, line 465). -/
def cwo_mark_tags : List Oid → List Pobject → List Pobject
  | [], es => es
  | t :: ts, es => cwo_mark_tags ts (cwo_mark_step es t)

/-- Stage 4 of the planner (lines 468–478): emit entries in original
recency order until the first tagged tip; returns the state and the
cutoff `last_untagged`. -/
def cwo_stage4 :
    Nat → Nat → (List Nat × List Pobject) → Option ((List Nat × List Pobject) × Nat)
  | 0, i, st => some (st, i)
  | r + 1, i, st =>
    match st.2[i]? with
    | none => none
    | some po =>
      if po.tagged then some (st, i)
      else
        match add_to_write_order st.1 st.2 i with
        | none => none
        | some st' => cwo_stage4 r (i + 1) st'

/-- A conditional emission pass (the loop shape of stages 5–7,
lines 480–508). -/
def cwo_add_if (cond : Pobject → Bool) :
    List Nat → (List Nat × List Pobject) → Option (List Nat × List Pobject)
  | [], st => some st
  | i :: idxs, st =>
    match st.2[i]? with
    | none => none
    | some po =>
      if cond po then
        match add_to_write_order st.1 st.2 i with
        | none => none
        | some st' => cwo_add_if cond idxs st'
      else cwo_add_if cond idxs st

/-- Stage 8 of the planner (lines 510–517): whole delta families in
pre-order for everything not yet filled. -/
def cwo_stage8 (fuel : Nat) :
    List Nat → (List Nat × List Pobject) → Option (List Nat × List Pobject)
  | [], st => some st
  | i :: idxs, st =>
    match st.2[i]? with
    | none => none
    | some po =>
      if po.filled then cwo_stage8 fuel idxs st
      else
        match add_family_to_write_order fuel st i with
        | none => none
        | some st' => cwo_stage8 fuel idxs st'

/-- `compute_write_order` (lines 434–525): `none` models the C function
returning NULL (tag enumeration failure aside, the final `wo_end !=
nr_objects` check) as well as walks the C code would perform on dangling
links.  On success the write order (a list of entry indices) and the
builder with updated planner flags are returned. -/
def compute_write_order (tags : List Oid) (pb : Packbuilder) :
    Option (List Nat × Packbuilder) :=
  let n := pb.object_list.length
  match cwo_forest (cwo_reset pb.object_list) with
  | none => none
  | some es1 =>
    let es2 := cwo_mark_tags tags es1
    match cwo_stage4 n 0 ([], es2) with
    | none => none
    | some (st4, last_untagged) =>
      let rest := List.range' last_untagged (n - last_untagged)
      match cwo_add_if (fun po => po.tagged) rest st4 with
      | none => none
      | some st5 =>
        match cwo_add_if (fun po => po.ty == OBJ_COMMIT || po.ty == OBJ_TAG)
            rest st5 with
        | none => none
        | some st6 =>
          match cwo_add_if (fun po => po.ty == OBJ_TREE) rest st6 with
          | none => none
          | some st7 =>
            match cwo_stage8 ((n + 1) * (n + 1) + 7) rest st7 with
            | none => none
            | some st8 =>
              if st8.1.length = n then
                some (st8.1, { pb with object_list := st8.2 })
              else none

/-! ## Pack writer (`write_pack` and friends, lines 175–351, 527–609) -/

/-- State threaded through the writer: the builder, the per-iteration
`git_buf`, the bytes accepted by the sink during this run, the full
content of the session hash context (the bytes it held on entry plus
those fed during this run), and a ghost trace of emitted records
(object id, optional REF_DELTA base id). -/
structure WriteState where
  pb : Packbuilder
  buf : List Nat
  out : List Nat
  hacc : List Nat
  recs : List (Oid × Option Oid)
  deriving Repr, DecidableEq

/-- Pointwise entry update helper (C mutates the entry in place). -/
def update_entry (st : WriteState) (i : Nat) (f : Pobject → Pobject) : WriteState :=
  { st with pb := { st.pb with object_list :=
      match st.pb.object_list[i]? with
      | none => st.pb.object_list
      | some po => st.pb.object_list.set i (f po) } }

/-- `get_delta` (lines 209–240): rebuild a delta at write time and check
its size against the recorded `delta_size` ("Delta size changed"). -/
def get_delta (E : Ext) (entries : List Pobject) (po : Pobject) :
    Except Unit (List Nat) :=
  match po.delta with
  | none => .error ()
  | some b =>
    match entries[b]? with
    | none => .error ()
    | some bpo =>
      match E.odb bpo.id, E.odb po.id with
      | some src, some trg =>
        match E.mk_delta src.2 trg.2 with
        | none => .error ()
        | some d => if d.length ≠ po.delta_size then .error () else .ok d
      | _, _ => .error ()

/-- Payload selection of `write_object` (lines 252–266): the cached
delta, the delta rebuilt by `get_delta`, or the full object read from the
database.  `none` models the C error return (and the null dereference of
`po->delta` that an object database claiming the wire-only REF_DELTA type
would cause). -/
def write_object_select (E : Ext) (entries : List Pobject) (po : Pobject) :
    Option (List Nat × Nat × Nat × Option Oid) :=
  match po.delta with
  | some b =>
    match entries[b]? with
    | none => none
    | some bpo =>
      match po.delta_data with
      | some d => some (d, po.delta_size, OBJ_REF_DELTA, some bpo.id)
      | none =>
        match get_delta E entries po with
        | .error _ => none
        | .ok d => some (d, po.delta_size, OBJ_REF_DELTA, some bpo.id)
  | none =>
    match E.odb po.id with
    | none => none
    | some (oty, data) =>
      if oty = OBJ_REF_DELTA then none
      else some (data, data.length, oty, none)

/-- `write_object` (lines 242–314): choose the payload, emit the
variable-length header, for REF_DELTA the 20-byte base identifier, then
the compressed payload; every emitted byte is also fed to the rolling
hash.  The ghost record trace is extended with the object id and optional
base id.  The Bool is `false` on the C error return; as in C, state
mutated before the failure point persists (here the failure points all
precede any mutation). -/
def write_object (E : Ext) (st : WriteState) (i : Nat) : WriteState × Bool :=
  match st.pb.object_list[i]? with
  | none => (st, false)
  | some po =>
    match write_object_select E st.pb.object_list po with
    | none => (st, false)
    | some (data, size, ty, base) =>
      let hdr := gen_pack_object_header size ty
      let st := { st with buf := st.buf ++ hdr, hacc := st.hacc ++ hdr }
      let st :=
        match base with
        | some bid => { st with buf := st.buf ++ bid, hacc := st.hacc ++ bid }
        | none => st
      let payload := if po.z_delta_size ≠ 0 then data.take po.z_delta_size
                     else E.compress data
      let st := { st with buf := st.buf ++ payload, hacc := st.hacc ++ payload }
      ({ st with
         pb := { st.pb with nr_written := st.pb.nr_written + 1 }
         recs := st.recs ++ [(po.id, base)] }, true)

/-- The `write_one_status` values actually produced (lines 316–321;
`WRITE_ONE_BREAK` is never produced by this code). -/
inductive WStatus where
  | skip
  | written
  | recursive
  deriving Repr, DecidableEq

/-- `write_one` (lines 323–351): skip already written entries, report
recursion, otherwise write the delta base first; if the base is currently
being recursed into, sever the delta link and write this entry as a full
base.  Fuelled: the C recursion depth is bounded by the registry size
because every active call has flagged a distinct entry `recursing`.
Errors carry the mutated state, as the C code mutates the builder through
a pointer. -/
def write_one (E : Ext) : Nat → WriteState → Nat → WriteState × Except Unit WStatus
  | 0, st, _ => (st, .error ())
  | fuel + 1, st, i =>
    match st.pb.object_list[i]? with
    | none => (st, .error ())
    | some po =>
      if po.recursing then (st, .ok WStatus.recursive)
      else if po.written then (st, .ok WStatus.skip)
      else
        let step1 : WriteState × Except Unit Unit :=
          match po.delta with
          | none => (st, .ok ())
          | some b =>
            let st1 := update_entry st i (fun p => { p with recursing := true })
            match write_one E fuel st1 b with
            | (st2, .error e) => (st2, .error e)
            | (st2, .ok WStatus.recursive) =>
              (update_entry st2 i (fun p => { p with delta := none }), .ok ())
            | (st2, .ok _) => (st2, .ok ())
        match step1 with
        | (st2, .error e) => (st2, .error e)
        | (st2, .ok _) =>
          let st3 := update_entry st2 i
            (fun p => { p with written := true, recursing := false })
          match write_object E st3 i with
          | (st4, true) => (st4, .ok WStatus.written)
          | (st4, false) => (st4, .error ())

/-- The 12-byte pack header (lines 543–545, format fixed bit-exactly by
spec §6): "PACK", big-endian version 2, big-endian entry count.
`PACK_SIGNATURE = 0x5041434b` and `PACK_VERSION = 2` live in `pack.h`,
outside `src/`; their values are those the spec states. -/
def pack_header (n : Nat) : List Nat :=
  be32 0x5041434b ++ be32 2 ++ be32 (n % W32)

/-- The record loop of `write_pack` (lines 553–565; the `do/while` makes
a single pass since `i` reaches `nr_objects`): write one record, deliver
the accumulated buffer to the sink (`cb(buf.ptr, buf.size, data)`
followed by `git_buf_clear`), repeat.  The Bool is `false` on failure;
the mutated state persists. -/
def write_pack_loop (E : Ext) : List Nat → WriteState → WriteState × Bool
  | [], st => (st, true)
  | i :: rest, st =>
    match write_one E (st.pb.object_list.length + 2) st i with
    | (st1, .error _) => (st1, false)
    | (st1, .ok _) =>
      if E.sink st1.buf then
        write_pack_loop E rest { st1 with out := st1.out ++ st1.buf, buf := [] }
      else (st1, false)

/-- `write_pack` (lines 527–577): plan the order, deliver the header and
hash it (the C code updates `pb->ctx` only after the callback accepted
the header, lines 547–551), write every record, then finalise the
session hash and deliver the digest.  The session hash context persists:
the run starts from the bytes already in `pb->ctx` (`pb1.hctx`) and the
bytes fed during the run are committed back on every exit path after the
header was accepted, exactly as the in-place `git_hash_update` calls do.
Returns the builder (mutated even on failure, as in C) and, on success,
the delivered byte stream with the ghost record trace.  The planner's
transient-flag mutations on its own failure paths are not carried (they
are reset by every planner run and read nowhere else). -/
def write_pack (E : Ext) (pb : Packbuilder) :
    Packbuilder × Except Unit (List Nat × List (Oid × Option Oid)) :=
  match compute_write_order E.tags pb with
  | none => (pb, .error ())
  | some (order, pb1) =>
    let hdr := pack_header pb.object_list.length
    if E.sink hdr then
      let st0 : WriteState :=
        { pb := pb1, buf := [], out := hdr, hacc := pb1.hctx ++ hdr, recs := [] }
      match write_pack_loop E order st0 with
      | (st, false) => ({ st.pb with hctx := st.hacc }, .error ())
      | (st, true) =>
        let digest := E.hash_final st.hacc
        if E.sink digest then
          ({ st.pb with hctx := st.hacc }, .ok (st.out ++ digest, st.recs))
        else ({ st.pb with hctx := st.hacc }, .error ())
    else (pb1, .error ())

/-- `git_packbuilder_send` (lines 1253–1257): prepare, then stream. -/
def git_packbuilder_send (E : Ext) (pb : Packbuilder) :
    Packbuilder × Except Unit (List Nat × List (Oid × Option Oid)) :=
  let r := prepare_pack E pb
  if r.2 then write_pack E r.1 else (r.1, .error ())

/-- `git_packbuilder_write_buf` (lines 1259–1263). -/
def git_packbuilder_write_buf (E : Ext) (pb : Packbuilder) :
    Packbuilder × Except Unit (List Nat × List (Oid × Option Oid)) :=
  let r := prepare_pack E pb
  if r.2 then write_pack E r.1 else (r.1, .error ())

/-- `git_packbuilder_write` (lines 1265–1269 with `write_pack_file`,
lines 597–609): prepare, open the file buffer, stream, commit. -/
def git_packbuilder_write (E : Ext) (pb : Packbuilder) :
    Packbuilder × Except Unit (List Nat × List (Oid × Option Oid)) :=
  let r := prepare_pack E pb
  if r.2 then
    if E.file_open_ok then
      match write_pack E r.1 with
      | (pb2, .error e) => (pb2, .error e)
      | (pb2, .ok out) =>
        if E.file_commit_ok then (pb2, .ok out) else (pb2, .error ())
    else (r.1, .error ())
  else (r.1, .error ())

/-! ## Concrete example inputs

Small closed sessions used to witness the theorems below and to exhibit
counterexamples.  `exOid1/2/3` are three distinct 20-byte identifiers;
`exExt` is an external environment whose object database holds three blobs
of sizes 100, 99 and 40, whose delta engine produces a 25-byte delta
exactly from the 100-byte blob to the 99-byte blob, and whose compressor
and rolling hash are the identity and a constant 20-byte digest. -/

/-- A 20-byte identifier, value 1. -/
def exOid1 : Oid := List.replicate 20 1
/-- A 20-byte identifier, value 2. -/
def exOid2 : Oid := List.replicate 20 2
/-- A 20-byte identifier, value 3. -/
def exOid3 : Oid := List.replicate 20 3

/-- The example external environment. -/
def exExt : Ext :=
  { odb := fun oid =>
      if oid = exOid1 then some (OBJ_BLOB, List.replicate 100 0)
      else if oid = exOid2 then some (OBJ_BLOB, List.replicate 99 0)
      else if oid = exOid3 then some (OBJ_BLOB, List.replicate 40 0)
      else none
    mk_delta := fun src trg =>
      if src.length = 100 ∧ trg.length = 99 then some (List.replicate 25 7)
      else none
    compress := fun l => l
    hash_final := fun _ => List.replicate 20 9
    mk_index_size := fun _ => some 0
    tags := []
    sink := fun _ => true
    file_open_ok := true
    file_commit_ok := true }

/-- A fresh session with all configuration keys at their defaults (what
`git_packbuilder_new` builds when every lookup reports `NOT_FOUND`). -/
def exPb0 : Packbuilder :=
  { object_list := [], delta_cache_size := 0,
    max_delta_cache_size := GIT_PACK_DELTA_CACHE_SIZE,
    cache_max_small_delta_size := GIT_PACK_DELTA_CACHE_LIMIT,
    big_file_threshold := GIT_PACK_BIG_FILE_THRESHOLD,
    window_memory_limit := 0, nr_threads := 1, done := false, nr_written := 0,
    hctx := [] }

/-- `exPb0` after inserting the 100-byte blob. -/
def exPb1 : Packbuilder := (git_packbuilder_insert exExt exPb0 exOid1 none).1
/-- `exPb1` after inserting the 99-byte blob. -/
def exPb2 : Packbuilder := (git_packbuilder_insert exExt exPb1 exOid2 none).1
/-- `exPb2` after the first (successful) `prepare_pack`: the 99-byte blob
is recorded as a 25-byte cached delta against the 100-byte blob. -/
def exPb3 : Packbuilder := (prepare_pack exExt exPb2).1
/-- `exPb3` after inserting a third, 40-byte blob (this clears `done`). -/
def exPb4 : Packbuilder := (git_packbuilder_insert exExt exPb3 exOid3 none).1
/-- `exPb4` after `get_object_details`, as the second `prepare_pack` run
computes it. -/
def exPb4d : Packbuilder := get_object_details exPb4

/-- The full writer run on the prepared two-object session. -/
def exBuild : Packbuilder × Except Unit (List Nat × List (Oid × Option Oid)) :=
  write_pack exExt exPb3
/-- The stream of `exBuild`. -/
def exStream : List Nat := match exBuild.2 with | .ok r => r.1 | .error _ => []
/-- The record trace of `exBuild`. -/
def exRecs : List (Oid × Option Oid) := match exBuild.2 with | .ok r => r.2 | .error _ => []
/-- The final builder of `exBuild`. -/
def exPbW : Packbuilder := exBuild.1

/-- The empty-session stream (12-byte header followed by the digest). -/
def exStream0 : List Nat := pack_header 0 ++ exExt.hash_final (pack_header 0)

/-- A 20-byte identifier, value 4. -/
def exOid4 : Oid := List.replicate 20 4

/-- An environment whose database holds blobs of 100, 99 and 98 bytes,
whose delta engine turns the 100-byte blob into either smaller one (25
and 24 byte deltas), and whose sink rejects exactly the chunks of length
47 — the length of the 99-byte blob's REF_DELTA record (2-byte header,
20-byte base id, 25-byte payload). -/
def exExtF : Ext :=
  { odb := fun oid =>
      if oid = exOid1 then some (OBJ_BLOB, List.replicate 100 0)
      else if oid = exOid2 then some (OBJ_BLOB, List.replicate 99 0)
      else if oid = exOid4 then some (OBJ_BLOB, List.replicate 98 0)
      else none
    mk_delta := fun src trg =>
      if src.length = 100 ∧ trg.length = 99 then some (List.replicate 25 7)
      else if src.length = 100 ∧ trg.length = 98 then some (List.replicate 24 7)
      else none
    compress := fun l => l
    hash_final := fun _ => List.replicate 20 9
    mk_index_size := fun _ => some 0
    tags := []
    sink := fun c => c.length ≠ 47
    file_open_ok := true
    file_commit_ok := true }

/-- The session holding the 100-, 99- and 98-byte blobs. -/
def exPbF0 : Packbuilder :=
  (git_packbuilder_insert exExtF
    (git_packbuilder_insert exExtF
      (git_packbuilder_insert exExtF exPb0 exOid1 none).1 exOid2 none).1
    exOid4 none).1

/-- The first (failing) build on that session: the sink rejects the
99-byte blob's delta record after the 100- and 99-byte blobs were already
marked written. -/
def exBuildF1 : Packbuilder × Except Unit (List Nat × List (Oid × Option Oid)) :=
  git_packbuilder_write_buf exExtF exPbF0

/-- The session as the failed build leaves it. -/
def exPbF1 : Packbuilder := exBuildF1.1

/-- The second build on the same session, which succeeds. -/
def exBuildF2 : Packbuilder × Except Unit (List Nat × List (Oid × Option Oid)) :=
  git_packbuilder_write_buf exExtF exPbF1

/-- The record trace of the second build. -/
def exRecsF2 : List (Oid × Option Oid) :=
  match exBuildF2.2 with | .ok r => r.2 | .error _ => []

/-- The byte stream of the second build. -/
def exStreamF2 : List Nat :=
  match exBuildF2.2 with | .ok r => r.1 | .error _ => []

/-- An environment for the session-hash trace: like `exExt`, but its
rolling hash digests the input length (first byte = length mod 256, then
19 zero bytes), so digests over different byte counts differ. -/
def exExtH : Ext :=
  { exExt with hash_final := fun l => l.length % 256 :: List.replicate 19 0 }

/-- First build of an empty fresh session against `exExtH`. -/
def exSendH1 : Packbuilder × Except Unit (List Nat × List (Oid × Option Oid)) :=
  git_packbuilder_send exExtH exPb0

/-- The session after the first build: its hash context now holds that
build's 12 header bytes. -/
def exPbH1 : Packbuilder := exSendH1.1

/-- The first build's stream. -/
def exStreamH1 : List Nat :=
  match exSendH1.2 with | .ok r => r.1 | .error _ => []

/-- Second build of the same session. -/
def exSendH2 : Packbuilder × Except Unit (List Nat × List (Oid × Option Oid)) :=
  git_packbuilder_send exExtH exPbH1

/-- The second build's stream. -/
def exStreamH2 : List Nat :=
  match exSendH2.2 with | .ok r => r.1 | .error _ => []

/-- A registry entry with the write-order planner's scratch fields
cleared: two entries equal under this erasure differ at most in `filled`,
`tagged`, `delta_child` and `delta_sibling` — exactly the fields
`compute_write_order` rewrites on each run. -/
def erase_plan_flags (p : Pobject) : Pobject :=
  { p with filled := false, tagged := false,
           delta_child := none, delta_sibling := none }

/-- Two entry lists agree outside the planner's scratch fields. -/
def same_core (es es' : List Pobject) : Prop :=
  es'.map erase_plan_flags = es.map erase_plan_flags

/-- Well-formedness of a record trace: every base identifier carried by a
REF_DELTA record equals the object id of a record at a strictly earlier
position of the trace. -/
def recs_ok (recs : List (Oid × Option Oid)) : Prop :=
  ∀ (i : Nat) (x b : Oid), recs[i]? = some (x, some b) →
    ∃ (j : Nat) (y : Oid × Option Oid), j < i ∧ recs[j]? = some y ∧ y.1 = b

/-- Every registry entry flagged `written` has its id among the ids of
the records emitted so far. -/
def ids_written (st : WriteState) : Prop :=
  ∀ (k : Nat) (po : Pobject), st.pb.object_list[k]? = some po → po.written = true →
    po.id ∈ st.recs.map Prod.fst

/-- How one `write_one` call extends the writer state: the registry keeps
its length, already-delivered output is untouched, the pending buffer and
the hash accumulator grow by the same bytes, the record trace only grows,
and every entry keeps its id while `written` flags are only ever set. -/
def wext (st st' : WriteState) : Prop :=
  st'.pb.object_list.length = st.pb.object_list.length ∧
  st'.out = st.out ∧
  (∃ app, st'.buf = st.buf ++ app ∧ st'.hacc = st.hacc ++ app) ∧
  (∃ ext, st'.recs = st.recs ++ ext) ∧
  (∀ k : Nat, (st'.pb.object_list[k]?).map Pobject.id =
        (st.pb.object_list[k]?).map Pobject.id) ∧
  (∀ (k : Nat) (pk : Pobject), st.pb.object_list[k]? = some pk → pk.written = true →
     (st'.pb.object_list[k]?).map Pobject.written = some true)

/-- C6 counterexample, 16-byte name: bytes chosen so that folding them
carries a wrap-around difference out of a changed prefix. -/
def exName2 : List Nat := [107, 97, 99, 1, 1, 1, 1, 1, 1, 1, 1, 1, 1, 1, 1, 1]
/-- C6 counterexample, long name: a non-whitespace prefix byte 200 in
front of `exName2`. -/
def exName1 : List Nat := 200 :: exName2

/-- C3 counterexample: entry 0 is a delta whose base is entry 1 (a delta
link pointing forward in insertion order, as the delta search can produce
when the sorted search order differs from insertion order). -/
def exPbPlan : Packbuilder :=
  { exPb0 with object_list :=
      [{ mk_pobject exOid1 OBJ_BLOB 60 0 with delta := some 1, delta_size := 5 },
       mk_pobject exOid2 OBJ_BLOB 70 0] }

/-- C7 counterexample: two candidate entries with identical type, name
hash and size, inserted in the order entry 0 then entry 1. -/
def exPbTie : Packbuilder :=
  { exPb0 with object_list :=
      [mk_pobject exOid1 OBJ_BLOB 60 5, mk_pobject exOid2 OBJ_BLOB 60 5] }

/-- C5 witness inputs: a registry with one commit and one blob. -/
def exPbMix : Packbuilder :=
  { exPb0 with object_list :=
      [mk_pobject exOid1 OBJ_COMMIT 60 0, mk_pobject exOid2 OBJ_BLOB 60 0] }

/-- C5 witness target slot (holding the commit). -/
def exSlotT : Unpacked := { empty_unpacked with object := some 0 }
/-- C5 witness source slot (holding the blob). -/
def exSlotS : Unpacked := { empty_unpacked with object := some 1 }

/-- The entry at an index, defaulting to a zeroed entry: used only to
state order properties of valid index lists. -/
def entry_at (entries : List Pobject) (i : Nat) : Pobject :=
  (entries[i]?).getD (mk_pobject [] 0 0 0)

/-- The write order produced on `exPbPlan`. -/
def exPlanWo : List Nat :=
  match compute_write_order [] exPbPlan with
  | some r => r.1
  | none => []

/-- The planner-updated builder produced on `exPbPlan`. -/
def exPlanPb : Packbuilder :=
  match compute_write_order [] exPbPlan with
  | some r => r.2
  | none => exPbPlan

/-- Invariant carried through the write-order construction: the entry
list keeps its length, the write order has no duplicates, all its indices
are in range, and an entry is `filled` exactly when its index is already
in the order. -/
def cwo_inv (n : Nat) (st : List Nat × List Pobject) : Prop :=
  st.2.length = n ∧ st.1.Nodup ∧ (∀ i ∈ st.1, i < n) ∧
  (∀ i, i < n → (((st.2[i]?).map Pobject.filled = some true) ↔ i ∈ st.1))

/-- Length and `filled` fields agree between two entry lists (the planner
passes that only touch other fields preserve this). -/
def same_filled (es es' : List Pobject) : Prop :=
  es'.length = es.length ∧
  ∀ i : Nat, (es'[i]?).map Pobject.filled = (es[i]?).map Pobject.filled

/-! # Theorems -/

/-! ## C10: the per-object header never overruns its 10-byte buffer -/

theorem gen_pack_loop_go_length_le (k : Nat) :
    ∀ (fuel c size : Nat), size < 128 ^ k →
      (gen_pack_loop_go fuel c size).length ≤ k + 1 := by
  induction k with
  | zero =>
    intro fuel c size h
    have hz : size = 0 := by omega
    cases fuel with
    | zero => simp [gen_pack_loop_go]
    | succ fuel => simp [gen_pack_loop_go, hz]
  | succ k ih =>
    intro fuel c size h
    cases fuel with
    | zero => simp [gen_pack_loop_go]
    | succ fuel =>
      unfold gen_pack_loop_go
      split
      · simp
      · next hne =>
        have hlt : size / 128 < 128 ^ k := by
          rw [Nat.div_lt_iff_lt_mul (by norm_num : (0:Nat) < 128)]
          calc size < 128 ^ (k + 1) := h
          _ = 128 ^ k * 128 := by ring
        have := ih fuel (size % 128) (size / 128) hlt
        simpa using Nat.succ_le_succ this

theorem gen_pack_loop_length_le (k : Nat) :
    ∀ c size, size < 128 ^ k → (gen_pack_loop c size).length ≤ k + 1 := by
  intro c size h
  exact gen_pack_loop_go_length_le k size c size h

theorem gen_pack_loop_length_pos (c size : Nat) :
    0 < (gen_pack_loop c size).length := by
  unfold gen_pack_loop
  cases size with
  | zero => simp [gen_pack_loop_go]
  | succ n =>
    unfold gen_pack_loop_go
    split <;> simp

/-- C10: for every size representable as an unsigned 64-bit integer and
every object type value, `gen_pack_object_header` emits between 1 and 10
bytes, so the fixed `unsigned char hdr[10]` buffer of `write_object`
(line 247) is never overrun.  In the model the function returns the byte
list itself, so its length is by construction the number of bytes
written, which is what the C function returns (`hdr - hdr_base`). -/
theorem c10_header_bounded (size ty : Nat) (h : size < W64) :
    0 < (gen_pack_object_header size ty).length ∧
    (gen_pack_object_header size ty).length ≤ 10 := by
  refine ⟨gen_pack_loop_length_pos _ _, ?_⟩
  unfold gen_pack_object_header
  have h16 : size / 16 < 128 ^ 9 := by
    rw [Nat.div_lt_iff_lt_mul (by norm_num : (0:Nat) < 16)]
    calc size < W64 := h
    _ ≤ 128 ^ 9 * 16 := by norm_num [W64]
  exact gen_pack_loop_length_le 9 _ _ h16

/-- C10 witness: the largest 64-bit size, blob type. -/
theorem c10_header_bounded_witness :
    2 ^ 64 - 1 < W64 ∧ (gen_pack_object_header (2 ^ 64 - 1) 3).length ≤ 10 :=
  ⟨by norm_num [W64], (c10_header_bounded (2 ^ 64 - 1) 3 (by norm_num [W64])).2⟩

/-! ## C6: dependence of `name_hash` on the last 16 non-whitespace bytes -/

theorem name_hash_fold_filter (l : List Nat) :
    ∀ a, l.foldl (fun h c => if git_isspace c then h else name_hash_step h c) a =
      (l.filter (fun c => !(git_isspace c))).foldl name_hash_step a := by
  induction l with
  | nil => intro a; rfl
  | cons c l ih =>
    intro a
    by_cases hc : git_isspace c <;> simp [List.foldl_cons, List.filter, hc, ih]

/-- C6 counterexample: two names that agree on their last 16
non-whitespace bytes (neither contains whitespace or NUL bytes) but hash
differently — the byte added in front of the 16-byte suffix survives the
sixteen folds through a carry, so `name_hash` does not depend only on the
last 16 non-whitespace bytes. -/
theorem c6_counterexample :
    (non_ws exName1).drop ((non_ws exName1).length - 16) = non_ws exName2 ∧
    (non_ws exName2).length = 16 ∧
    name_hash (some exName1) ≠ name_hash (some exName2) := by decide

/-- C6 (amended): `name_hash` depends exactly on the sequence of
non-whitespace bytes of the name up to its first NUL — whitespace bytes
are skipped, so two names with the same non-whitespace byte sequence hash
equally — and a null name hashes to 0.  Agreement on merely the last 16
non-whitespace bytes does not in general give equal hashes (see the
counterexample). -/
theorem c6_amended :
    (∀ l1 l2 : List Nat, non_ws l1 = non_ws l2 →
      name_hash (some l1) = name_hash (some l2)) ∧ name_hash none = 0 := by
  refine ⟨fun l1 l2 h => ?_, rfl⟩
  show name_hash_fold (c_str l1) = name_hash_fold (c_str l2)
  unfold name_hash_fold
  rw [name_hash_fold_filter, name_hash_fold_filter]
  unfold non_ws at h
  rw [h]

/-- C6 witness: whitespace is skipped wherever it sits. -/
theorem c6_amended_witness :
    non_ws [32, 65] = non_ws [65, 9] ∧
    name_hash (some [32, 65]) = name_hash (some [65, 9]) :=
  ⟨by decide, c6_amended.1 [32, 65] [65, 9] (by decide)⟩

/-! ## C8: configuration fallback and the dual read of `pack.deltaCacheSize` -/

/-- C8: at session construction each configuration lookup falls back to
its default exactly on `NOT_FOUND`, any other lookup error makes
`packbuilder_config` (and hence construction) fail, and the single key
`pack.deltaCacheSize` is read twice — once into `max_delta_cache_size`
(default 256 MiB) and once into `big_file_threshold` (default 512 MiB). -/
theorem c8_config (cfg : Config) :
    ((∃ f, packbuilder_config cfg = .ok f) ↔
      (cfg "pack.deltaCacheSize" ≠ ConfigVal.err ∧
       cfg "pack.deltaCacheLimit" ≠ ConfigVal.err ∧
       cfg "pack.windowMemory" ≠ ConfigVal.err)) ∧
    (∀ f, packbuilder_config cfg = .ok f →
      ((cfg "pack.deltaCacheSize" = ConfigVal.notFound →
          f.max_delta_cache_size = (GIT_PACK_DELTA_CACHE_SIZE : Int) ∧
          f.big_file_threshold = (GIT_PACK_BIG_FILE_THRESHOLD : Int)) ∧
       (∀ v, cfg "pack.deltaCacheSize" = ConfigVal.found v →
          f.max_delta_cache_size = v ∧ f.big_file_threshold = v) ∧
       (cfg "pack.deltaCacheLimit" = ConfigVal.notFound →
          f.cache_max_small_delta_size = (GIT_PACK_DELTA_CACHE_LIMIT : Int)) ∧
       (∀ v, cfg "pack.deltaCacheLimit" = ConfigVal.found v →
          f.cache_max_small_delta_size = v) ∧
       (cfg "pack.windowMemory" = ConfigVal.notFound →
          f.window_memory_limit = 0) ∧
       (∀ v, cfg "pack.windowMemory" = ConfigVal.found v →
          f.window_memory_limit = v))) := by
  cases h1 : cfg "pack.deltaCacheSize" <;>
    cases h2 : cfg "pack.deltaCacheLimit" <;>
      cases h3 : cfg "pack.windowMemory" <;>
        simp_all [packbuilder_config, config_get, bind, Except.bind, pure,
          Except.pure]

/-- C8 witness: an all-`NOT_FOUND` store constructs successfully. -/
theorem c8_config_witness :
    ∃ f, packbuilder_config (fun _ => ConfigVal.notFound) = .ok f :=
  (c8_config (fun _ => ConfigVal.notFound)).1.mpr
    ⟨by decide, by decide, by decide⟩

/-! ## C9: `prepare_pack` is idempotent; insertion of a new id clears `done` -/

/-- C9: a second `prepare_pack` after a successful one (with no insert in
between) returns success and the identical session state — it
short-circuits on the `done` flag (or on an empty registry) — and every
successful insert of a new id clears `done`, so the next build re-runs the
delta search. -/
theorem c9_prepare_idempotent (E : Ext) (pb : Packbuilder) :
    ((prepare_pack E pb).2 = true →
      prepare_pack E (prepare_pack E pb).1 = ((prepare_pack E pb).1, true)) ∧
    (∀ oid name,
      (∀ po ∈ pb.object_list, po.id ≠ oid) →
      (git_packbuilder_insert E pb oid name).2 = true →
      (git_packbuilder_insert E pb oid name).1.done = false) := by
  constructor
  · intro h
    have key : (prepare_pack E pb).1.object_list.length = 0 ∨
        (prepare_pack E pb).1.done = true := by
      revert h
      unfold prepare_pack
      split
      · next hc =>
        intro _
        rcases hc with hc | hc
        · exact Or.inl hc
        · exact Or.inr hc
      · dsimp only
        split
        · split
          · intro h; simp at h
          · intro _; right; rfl
        · intro _; right; rfl
    rcases key with k | k
    · rw [prepare_pack]
      rw [if_pos (Or.inl k)]
    · rw [prepare_pack]
      rw [if_pos (Or.inr (by simp [k]))]
  · intro oid name hnew hsucc
    have hany : (pb.object_list.any (fun po => decide (po.id = oid))) = false := by
      simp only [List.any_eq_false, decide_eq_true_eq]
      exact hnew
    unfold git_packbuilder_insert at hsucc ⊢
    rw [hany] at hsucc ⊢
    cases hodb : E.odb oid with
    | none => rw [hodb] at hsucc; simp at hsucc
    | some v => cases v with
      | mk ty data => simp

/-- C9 witness: on the concrete two-blob session the second prepare is the
identity with success, and inserting the fresh third id clears `done`. -/
theorem c9_prepare_idempotent_witness :
    prepare_pack exExt (prepare_pack exExt exPb2).1 =
      ((prepare_pack exExt exPb2).1, true) ∧
    (git_packbuilder_insert exExt exPb3 exOid3 none).1.done = false :=
  ⟨(c9_prepare_idempotent exExt exPb2).1 (by decide),
   (c9_prepare_idempotent exExt exPb3).2 exOid3 none (by decide) (by decide)⟩

/-! ## C4: delta-chain invariant under insert and prepare-pack -/

/-- C4 (code bug): the delta-chain invariant is not maintained by the
code.  On the concrete reachable trace below — insert two deltifiable
blobs, run `prepare_pack` (the 99-byte blob becomes a cached delta against
the 100-byte blob), insert a third small blob (clearing `done`), run
`prepare_pack` again — the second delta search processes the deltified
entry with a fresh window slot (`depth` reset to 0, understating the real
chain), rejects a new delta because the scaled budget
`100 * 50 / 51 = 98` is below the 100-byte engine delta, and then, because
`po->delta` is still set while `best_base` is still `-1`, executes the
window rotation `swap = array[best_base]` at index -1 (lines 957–967): an
out-of-bounds read and write, undefined behaviour.  The model flags
exactly this access with the `FdErr.oob` sentinel.  (git's own
pack-objects avoids this path by never re-listing already-deltified
entries.)  The second prepare therefore cannot be said to preserve the
claimed invariant. -/
theorem c4_second_prepare_oob :
    (prepare_pack exExt exPb2).2 = true ∧
    (exPb3.object_list[1]?).bind Pobject.delta = some 0 ∧
    exPb4.done = false ∧
    (ll_find_deltas exExt exPb4d
        (sort_delta_list exPb4d.object_list (prepare_delta_list exPb4d))
        (GIT_PACK_WINDOW + 1) GIT_PACK_DEPTH).2 = some FdErr.oob ∧
    (prepare_pack exExt exPb4).2 = false := by
  refine ⟨by decide, by decide, by decide, by decide, by decide⟩

/-! ## C7: the delta scheduler's candidate list and its order -/

theorem type_size_sort_total (entries : List Pobject) (a b : Nat) :
    type_size_sort entries a b ≤ 0 ∨ type_size_sort entries b a ≤ 0 := by
  unfold type_size_sort
  cases entries[a]? <;> cases entries[b]? <;> simp <;> split_ifs <;> omega

theorem type_size_sort_le_iff (entries : List Pobject) (a b : Nat)
    (pa qb : Pobject) (ha : entries[a]? = some pa) (hb : entries[b]? = some qb) :
    (type_size_sort entries a b ≤ 0 ↔
      (qb.ty < pa.ty ∨ (pa.ty = qb.ty ∧ (qb.hash < pa.hash ∨ (pa.hash = qb.hash ∧
        (qb.size < pa.size ∨ (pa.size = qb.size ∧ a ≤ b))))))) := by
  unfold type_size_sort
  rw [ha, hb]
  dsimp only
  split_ifs <;> omega

theorem type_size_sort_trans (entries : List Pobject) (a b c : Nat)
    (pa qb rc : Pobject) (ha : entries[a]? = some pa) (hb : entries[b]? = some qb)
    (hc : entries[c]? = some rc) :
    type_size_sort entries a b ≤ 0 → type_size_sort entries b c ≤ 0 →
    type_size_sort entries a c ≤ 0 := by
  rw [type_size_sort_le_iff entries a b pa qb ha hb,
      type_size_sort_le_iff entries b c qb rc hb hc,
      type_size_sort_le_iff entries a c pa rc ha hc]
  omega

theorem sorted_orderedInsert_ts (entries : List Pobject) (a : Nat)
    (ha : a < entries.length) :
    ∀ l : List Nat, (∀ i ∈ l, i < entries.length) →
      l.Sorted (fun x y => type_size_sort entries x y ≤ 0) →
      (List.orderedInsert (fun x y => type_size_sort entries x y ≤ 0) a l).Sorted
        (fun x y => type_size_sort entries x y ≤ 0) := by
  intro l
  induction l with
  | nil => intro _ _; simp [List.orderedInsert]
  | cons b l ih =>
    intro hv hs
    rw [List.orderedInsert]
    rw [List.sorted_cons] at hs
    split_ifs with hab
    · rw [List.sorted_cons]
      refine ⟨?_, List.sorted_cons.mpr hs⟩
      intro x hx
      rcases List.mem_cons.mp hx with rfl | hx
      · exact hab
      · exact type_size_sort_trans entries a b x _ _ _
          (List.getElem?_eq_getElem ha)
          (List.getElem?_eq_getElem (hv b (by simp)))
          (List.getElem?_eq_getElem (hv x (by simp [hx])))
          hab (hs.1 x hx)
    · rw [List.sorted_cons]
      refine ⟨?_, ih (fun i hi => hv i (by simp [hi])) hs.2⟩
      intro x hx
      rcases (List.mem_orderedInsert _).mp hx with rfl | hx
      · rcases type_size_sort_total entries x b with h | h
        · exact absurd h hab
        · exact h
      · exact hs.1 x hx

theorem sorted_insertionSort_ts (entries : List Pobject) :
    ∀ l : List Nat, (∀ i ∈ l, i < entries.length) →
      (List.insertionSort (fun x y => type_size_sort entries x y ≤ 0) l).Sorted
        (fun x y => type_size_sort entries x y ≤ 0) := by
  intro l
  induction l with
  | nil => intro _; simp [List.insertionSort]
  | cons a l ih =>
    intro hv
    rw [List.insertionSort]
    refine sorted_orderedInsert_ts entries a (hv a (by simp)) _ ?_
      (ih (fun i hi => hv i (by simp [hi])))
    intro i hi
    exact hv i (by simp [(List.mem_insertionSort _).mp hi])

theorem prepare_delta_list_mem (pb : Packbuilder) (i : Nat) :
    i ∈ prepare_delta_list pb ↔
      ∃ po, pb.object_list[i]? = some po ∧ 50 ≤ po.size ∧ po.no_try_delta = false := by
  unfold prepare_delta_list
  rw [List.mem_filter, List.mem_range]
  constructor
  · rintro ⟨hlt, hp⟩
    cases hpo : pb.object_list[i]? with
    | none => rw [hpo] at hp; simp at hp
    | some po =>
      rw [hpo] at hp
      simp only [Bool.and_eq_true, decide_eq_true_eq, Bool.not_eq_true'] at hp
      exact ⟨po, rfl, hp.1, hp.2⟩
  · rintro ⟨po, hpo, h50, hntd⟩
    constructor
    · exact (List.getElem?_eq_some_iff.mp hpo).1
    · rw [hpo]
      simp [h50, hntd]

/-- C7 counterexample: two candidate entries tied on type, name hash and
size, inserted as entry 0 then entry 1.  The claim's tiebreak ("newest
first", following the code comment on line 636) predicts the order
`[1, 0]`; the comparator `a < b ? -1 : (a > b)` on entry addresses in
fact sorts the earlier-inserted entry first, producing `[0, 1]`. -/
theorem c7_tie_counterexample :
    prepare_delta_list exPbTie = [0, 1] ∧
    sort_delta_list exPbTie.object_list [0, 1] = [0, 1] ∧
    (exPbTie.object_list[0]?).map Pobject.ty =
      (exPbTie.object_list[1]?).map Pobject.ty ∧
    (exPbTie.object_list[0]?).map Pobject.hash =
      (exPbTie.object_list[1]?).map Pobject.hash ∧
    (exPbTie.object_list[0]?).map Pobject.size =
      (exPbTie.object_list[1]?).map Pobject.size := by
  refine ⟨by decide, by decide, by decide, by decide, by decide⟩

/-- C7 (amended): the delta scheduler's candidate list contains exactly
the registered entries with size at least 50 and `no_try_delta` unset, and
after sorting it is ordered descending by type, then by name hash, then by
size, with remaining ties broken by original insertion order — oldest
first, not newest first as the code comment suggests. -/
theorem c7_candidates_sorted (pb : Packbuilder) :
    (∀ i, i ∈ sort_delta_list pb.object_list (prepare_delta_list pb) ↔
      ∃ po, pb.object_list[i]? = some po ∧ 50 ≤ po.size ∧ po.no_try_delta = false) ∧
    (sort_delta_list pb.object_list (prepare_delta_list pb)).Pairwise
      (fun a b =>
        (entry_at pb.object_list b).ty < (entry_at pb.object_list a).ty ∨
        ((entry_at pb.object_list a).ty = (entry_at pb.object_list b).ty ∧
          ((entry_at pb.object_list b).hash < (entry_at pb.object_list a).hash ∨
          ((entry_at pb.object_list a).hash = (entry_at pb.object_list b).hash ∧
            ((entry_at pb.object_list b).size < (entry_at pb.object_list a).size ∨
            ((entry_at pb.object_list a).size = (entry_at pb.object_list b).size ∧
              a ≤ b)))))) := by
  have hdl : ∀ i ∈ prepare_delta_list pb, i < pb.object_list.length := by
    intro i hi
    obtain ⟨po, hpo, -, -⟩ := (prepare_delta_list_mem pb i).mp hi
    exact (List.getElem?_eq_some_iff.mp hpo).1
  have hmem : ∀ i, i ∈ sort_delta_list pb.object_list (prepare_delta_list pb) ↔
      i ∈ prepare_delta_list pb := by
    intro i
    unfold sort_delta_list
    exact List.mem_insertionSort _
  constructor
  · intro i
    rw [hmem i]
    exact prepare_delta_list_mem pb i
  · have hsorted := sorted_insertionSort_ts pb.object_list (prepare_delta_list pb) hdl
    refine List.Pairwise.imp_of_mem ?_ hsorted
    intro a b hma hmb hr
    have hva : a < pb.object_list.length := hdl a ((hmem a).mp hma)
    have hvb : b < pb.object_list.length := hdl b ((hmem b).mp hmb)
    have hga := List.getElem?_eq_getElem hva
    have hgb := List.getElem?_eq_getElem hvb
    have := (type_size_sort_le_iff pb.object_list a b _ _ hga hgb).mp hr
    simpa [entry_at, hga, hgb] using this

/-! ## C3: the write order is a permutation; delta-after-base fails -/

theorem cwo_inv_add {n : Nat} {st st' : List Nat × List Pobject} {i : Nat}
    (hinv : cwo_inv n st) (h : add_to_write_order st.1 st.2 i = some st') :
    cwo_inv n st' := by
  obtain ⟨hlen, hnd, hbd, hiff⟩ := hinv
  unfold add_to_write_order at h
  cases hpo : st.2[i]? with
  | none => simp only [hpo] at h; exact Option.noConfusion h
  | some po =>
    simp only [hpo] at h
    by_cases hf : po.filled
    · rw [if_pos hf] at h
      cases h
      exact ⟨hlen, hnd, hbd, hiff⟩
    · rw [if_neg hf] at h
      cases h
      have hilen : i < st.2.length := (List.getElem?_eq_some_iff.mp hpo).1
      have hi_n : i < n := hlen ▸ hilen
      have hnm : i ∉ st.1 := by
        intro hmem
        have h2 := (hiff i hi_n).mpr hmem
        rw [hpo] at h2
        simp at h2
        exact hf h2
      refine ⟨by simpa using hlen, ?_, ?_, ?_⟩
      · rw [List.nodup_append]
        refine ⟨hnd, List.nodup_singleton i, ?_⟩
        intro x hx hx'
        simp at hx'
        subst hx'
        exact hnm hx
      · intro j hj
        rcases List.mem_append.mp hj with hj | hj
        · exact hbd j hj
        · simp at hj
          subst hj
          exact hi_n
      · intro j hj_n
        by_cases hji : j = i
        · subst hji
          rw [List.getElem?_set_eq_of_lt _ hilen]
          simp
        · rw [List.getElem?_set_ne (fun he => hji he.symm)]
          rw [hiff j hj_n]
          simp [List.mem_append, hji]

theorem cwo_inv_sibling_walk {n : Nat} :
    ∀ (fuel : Nat) (ch : Option Nat) (st st' : List Nat × List Pobject),
      cwo_inv n st → add_sibling_walk fuel st ch = some st' → cwo_inv n st' := by
  intro fuel
  induction fuel with
  | zero =>
    intro ch st st' hinv h
    cases ch with
    | none => cases h; exact hinv
    | some s => cases h
  | succ fuel ih =>
    intro ch st st' hinv h
    cases ch with
    | none => cases h; exact hinv
    | some s =>
      unfold add_sibling_walk at h
      cases hadd : add_to_write_order st.1 st.2 s with
      | none => simp only [hadd] at h; exact Option.noConfusion h
      | some st1 =>
        simp only [hadd] at h
        exact ih _ _ _ (cwo_inv_add hinv hadd) h

theorem cwo_inv_desc {n : Nat} :
    ∀ (fuel : Nat) (st : List Nat × List Pobject) (i : Nat) (addOrd : Bool)
      (st' : List Nat × List Pobject),
      cwo_inv n st → add_descendants_to_write_order fuel st i addOrd = some st' →
      cwo_inv n st' := by
  intro fuel
  induction fuel with
  | zero => intro st i addOrd st' _ h; cases h
  | succ fuel ih =>
    intro st i addOrd st' hinv h
    unfold add_descendants_to_write_order at h
    cases hpo : st.2[i]? with
    | none => simp only [hpo] at h; exact Option.noConfusion h
    | some po0 =>
      simp only [hpo] at h
      have hstep : ∀ st2, (if addOrd then
          match add_to_write_order st.1 st.2 i with
          | none => none
          | some st1 => add_sibling_walk fuel st1 po0.delta_sibling
        else some st) = some st2 → cwo_inv n st2 := by
        intro st2 hs
        cases addOrd with
        | false => rw [if_neg Bool.false_ne_true] at hs; cases hs; exact hinv
        | true =>
          rw [if_pos rfl] at hs
          cases hadd : add_to_write_order st.1 st.2 i with
          | none => simp only [hadd] at hs; exact Option.noConfusion hs
          | some st1 =>
            simp only [hadd] at hs
            exact cwo_inv_sibling_walk fuel _ _ _ (cwo_inv_add hinv hadd) hs
      cases hs : (if addOrd then
          match add_to_write_order st.1 st.2 i with
          | none => none
          | some st1 => add_sibling_walk fuel st1 po0.delta_sibling
        else some st) with
      | none => simp only [hs] at h; exact Option.noConfusion h
      | some st2 =>
        simp only [hs] at h
        have hinv2 := hstep st2 hs
        cases hch : po0.delta_child with
        | some c => simp only [hch] at h; exact ih _ _ _ _ hinv2 h
        | none =>
          simp only [hch] at h
          cases hsib : po0.delta_sibling with
          | some s => simp only [hsib] at h; exact ih _ _ _ _ hinv2 h
          | none =>
            simp only [hsib] at h
            cases hcl : climb_walk st2.2 fuel po0.delta with
            | none => simp only [hcl] at h; exact Option.noConfusion h
            | some j? =>
              simp only [hcl] at h
              cases j? with
              | none => cases h; exact hinv2
              | some j =>
                cases hsb : (st2.2[j]?).bind Pobject.delta_sibling with
                | none => simp only [hsb] at h; exact Option.noConfusion h
                | some s =>
                  simp only [hsb] at h
                  exact ih _ _ _ _ hinv2 h

theorem cwo_inv_family {n : Nat} (fuel : Nat)
    {st st' : List Nat × List Pobject} {i : Nat}
    (hinv : cwo_inv n st) (h : add_family_to_write_order fuel st i = some st') :
    cwo_inv n st' := by
  unfold add_family_to_write_order at h
  cases hr : find_root st.2 fuel i with
  | none => simp only [hr] at h; exact Option.noConfusion h
  | some root =>
    simp only [hr] at h
    exact cwo_inv_desc fuel _ _ _ _ hinv h

theorem cwo_inv_stage4 {n : Nat} :
    ∀ (r i : Nat) (st st' : List Nat × List Pobject) (lu : Nat),
      cwo_inv n st → cwo_stage4 r i st = some (st', lu) → cwo_inv n st' := by
  intro r
  induction r with
  | zero => intro i st st' lu hinv h; cases h; exact hinv
  | succ r ih =>
    intro i st st' lu hinv h
    unfold cwo_stage4 at h
    cases hpo : st.2[i]? with
    | none => simp only [hpo] at h; exact Option.noConfusion h
    | some po =>
      simp only [hpo] at h
      by_cases ht : po.tagged
      · rw [if_pos ht] at h; cases h; exact hinv
      · rw [if_neg ht] at h
        cases hadd : add_to_write_order st.1 st.2 i with
        | none => simp only [hadd] at h; exact Option.noConfusion h
        | some st1 =>
          simp only [hadd] at h
          exact ih _ _ _ _ (cwo_inv_add hinv hadd) h

theorem cwo_inv_add_if {n : Nat} (cond : Pobject → Bool) :
    ∀ (idxs : List Nat) (st st' : List Nat × List Pobject),
      cwo_inv n st → cwo_add_if cond idxs st = some st' → cwo_inv n st' := by
  intro idxs
  induction idxs with
  | nil => intro st st' hinv h; cases h; exact hinv
  | cons i idxs ih =>
    intro st st' hinv h
    unfold cwo_add_if at h
    cases hpo : st.2[i]? with
    | none => simp only [hpo] at h; exact Option.noConfusion h
    | some po =>
      simp only [hpo] at h
      by_cases hc : cond po
      · rw [if_pos hc] at h
        cases hadd : add_to_write_order st.1 st.2 i with
        | none => simp only [hadd] at h; exact Option.noConfusion h
        | some st1 =>
          simp only [hadd] at h
          exact ih _ _ (cwo_inv_add hinv hadd) h
      · rw [if_neg hc] at h
        exact ih _ _ hinv h

theorem cwo_inv_stage8 {n : Nat} (fuel : Nat) :
    ∀ (idxs : List Nat) (st st' : List Nat × List Pobject),
      cwo_inv n st → cwo_stage8 fuel idxs st = some st' → cwo_inv n st' := by
  intro idxs
  induction idxs with
  | nil => intro st st' hinv h; cases h; exact hinv
  | cons i idxs ih =>
    intro st st' hinv h
    unfold cwo_stage8 at h
    cases hpo : st.2[i]? with
    | none => simp only [hpo] at h; exact Option.noConfusion h
    | some po =>
      simp only [hpo] at h
      by_cases hf : po.filled
      · rw [if_pos hf] at h
        exact ih _ _ hinv h
      · rw [if_neg hf] at h
        cases hfam : add_family_to_write_order fuel st i with
        | none => simp only [hfam] at h; exact Option.noConfusion h
        | some st1 =>
          simp only [hfam] at h
          exact ih _ _ (cwo_inv_family fuel hinv hfam) h

theorem same_filled_refl (es : List Pobject) : same_filled es es := ⟨rfl, fun _ => rfl⟩

theorem same_filled_trans {e1 e2 e3 : List Pobject} :
    same_filled e1 e2 → same_filled e2 e3 → same_filled e1 e3 :=
  fun h1 h2 => ⟨h2.1.trans h1.1, fun i => (h2.2 i).trans (h1.2 i)⟩

theorem same_filled_set {es : List Pobject} {i : Nat} {po po' : Pobject}
    (hpo : es[i]? = some po) (hfil : po'.filled = po.filled) :
    same_filled es (es.set i po') := by
  refine ⟨by simp, fun j => ?_⟩
  by_cases hji : j = i
  · subst hji
    rw [List.getElem?_set_eq_of_lt _ (List.getElem?_eq_some_iff.mp hpo).1, hpo]
    simp [hfil]
  · rw [List.getElem?_set_ne (fun he => hji he.symm)]

theorem cwo_forest_step_filled {es es' : List Pobject} {i : Nat}
    (h : cwo_forest_step es i = some es') : same_filled es es' := by
  unfold cwo_forest_step at h
  cases hpo : es[i]? with
  | none => simp only [hpo] at h; exact Option.noConfusion h
  | some po =>
    simp only [hpo] at h
    cases hd : po.delta with
    | none => simp only [hd] at h; cases h; exact same_filled_refl es
    | some b =>
      simp only [hd] at h
      cases hb : es[b]? with
      | none => simp only [hb] at h; exact Option.noConfusion h
      | some bpo =>
        simp only [hb] at h
        cases hb1 : (es.set i
            { po with delta := some b, delta_sibling := bpo.delta_child })[b]? with
        | none => simp only [hb1] at h; exact Option.noConfusion h
        | some bpo1 =>
          simp only [hb1] at h
          cases h
          refine same_filled_trans
            (show same_filled es (es.set i
              { po with delta := some b, delta_sibling := bpo.delta_child }) from
              same_filled_set hpo rfl) ?_
          exact same_filled_set hb1 rfl

theorem cwo_forest_go_filled :
    ∀ (l : List Nat) (es es' : List Pobject),
      cwo_forest_go l es = some es' → same_filled es es' := by
  intro l
  induction l with
  | nil => intro es es' h; cases h; exact same_filled_refl es
  | cons i l ih =>
    intro es es' h
    unfold cwo_forest_go at h
    cases hs : cwo_forest_step es i with
    | none => simp only [hs] at h; exact Option.noConfusion h
    | some es1 =>
      simp only [hs] at h
      exact same_filled_trans (cwo_forest_step_filled hs) (ih _ _ h)

theorem cwo_mark_step_filled (es : List Pobject) (t : Oid) :
    same_filled es (cwo_mark_step es t) := by
  unfold cwo_mark_step
  cases hf : es.findIdx? (fun po => decide (po.id = t)) with
  | none => exact same_filled_refl es
  | some i =>
    dsimp only
    cases hpo : es[i]? with
    | none => simp only [hpo]; exact same_filled_refl es
    | some po => simp only [hpo]; exact same_filled_set hpo rfl

theorem cwo_mark_tags_filled :
    ∀ (tags : List Oid) (es : List Pobject), same_filled es (cwo_mark_tags tags es) := by
  intro tags
  induction tags with
  | nil => intro es; exact same_filled_refl es
  | cons t ts ih =>
    intro es
    exact same_filled_trans (cwo_mark_step_filled es t) (ih _)

theorem cwo_reset_filled (es : List Pobject) :
    (cwo_reset es).length = es.length ∧
    ∀ i : Nat, i < es.length →
      ((cwo_reset es)[i]?).map Pobject.filled = some false := by
  refine ⟨by simp [cwo_reset], fun i hi => ?_⟩
  unfold cwo_reset
  rw [List.getElem?_map, List.getElem?_eq_getElem hi]
  rfl

/-- C3 counterexample: a registry whose entry 0 carries a delta against
entry 1 (a forward link in insertion order, as the sorted sliding-window
search can produce).  `compute_write_order` succeeds — its stage 4 emits
the untagged entries in plain insertion order — and places the delta
(index 0) before its base (index 1), so the produced order is a
permutation but does not put every delta after its base. -/
theorem c3_delta_before_base :
    (compute_write_order [] exPbPlan).map Prod.fst = some [0, 1] ∧
    (exPbPlan.object_list[0]?).bind Pobject.delta = some 1 := by
  refine ⟨by decide, by decide⟩

/-- C3 (amended): when `compute_write_order` succeeds on a registry of N
entries, the produced write order lists each of the N registered entries
exactly once — it is a permutation of the entry indices (none repeated,
none missing).  The second half of the original claim fails: an entry
whose `delta_base` points forward in insertion order is emitted before
the entry it points to (see the counterexample); base-before-delta is
enforced only later, at write time, by `write_one`'s recursion. -/
theorem c3_write_order_perm (tags : List Oid) (pb : Packbuilder)
    (wo : List Nat) (pb' : Packbuilder)
    (h : compute_write_order tags pb = some (wo, pb')) :
    wo.Perm (List.range pb.object_list.length) := by
  unfold compute_write_order at h
  cases hfo : cwo_forest (cwo_reset pb.object_list) with
  | none => simp only [hfo] at h; exact Option.noConfusion h
  | some es1 =>
    simp only [hfo] at h
    have hres := cwo_reset_filled pb.object_list
    have hfor : same_filled (cwo_reset pb.object_list) es1 :=
      cwo_forest_go_filled _ _ _ hfo
    have hmark := cwo_mark_tags_filled tags es1
    have hinv0 : cwo_inv pb.object_list.length ([], cwo_mark_tags tags es1) := by
      refine ⟨?_, List.nodup_nil, by simp, ?_⟩
      · calc (cwo_mark_tags tags es1).length = es1.length := hmark.1
        _ = (cwo_reset pb.object_list).length := hfor.1
        _ = pb.object_list.length := hres.1
      · intro i hi
        have : ((cwo_mark_tags tags es1)[i]?).map Pobject.filled = some false := by
          rw [hmark.2 i, hfor.2 i]
          exact hres.2 i hi
        simp only [this]
        simp
    cases h4 : cwo_stage4 pb.object_list.length 0 ([], cwo_mark_tags tags es1) with
    | none => simp only [h4] at h; exact Option.noConfusion h
    | some r4 =>
      obtain ⟨st4, lu⟩ := r4
      simp only [h4] at h
      have hinv4 : cwo_inv pb.object_list.length st4 :=
        cwo_inv_stage4 _ _ _ _ _ hinv0 h4
      cases h5 : cwo_add_if (fun po => po.tagged)
          (List.range' lu (pb.object_list.length - lu)) st4 with
      | none => simp only [h5] at h; exact Option.noConfusion h
      | some st5 =>
        simp only [h5] at h
        have hinv5 := cwo_inv_add_if _ _ _ _ hinv4 h5
        cases h6 : cwo_add_if (fun po => po.ty == OBJ_COMMIT || po.ty == OBJ_TAG)
            (List.range' lu (pb.object_list.length - lu)) st5 with
        | none => simp only [h6] at h; exact Option.noConfusion h
        | some st6 =>
          simp only [h6] at h
          have hinv6 := cwo_inv_add_if _ _ _ _ hinv5 h6
          cases h7 : cwo_add_if (fun po => po.ty == OBJ_TREE)
              (List.range' lu (pb.object_list.length - lu)) st6 with
          | none => simp only [h7] at h; exact Option.noConfusion h
          | some st7 =>
            simp only [h7] at h
            have hinv7 := cwo_inv_add_if _ _ _ _ hinv6 h7
            cases h8 : cwo_stage8 ((pb.object_list.length + 1) *
                (pb.object_list.length + 1) + 7)
                (List.range' lu (pb.object_list.length - lu)) st7 with
            | none => simp only [h8] at h; exact Option.noConfusion h
            | some st8 =>
              simp only [h8] at h
              have hinv8 := cwo_inv_stage8 _ _ _ _ hinv7 h8
              by_cases hlen : st8.1.length = pb.object_list.length
              · rw [if_pos hlen] at h
                cases h
                obtain ⟨-, hnd, hbd, -⟩ := hinv8
                have hsub : st8.1 ⊆ List.range pb.object_list.length := by
                  intro x hx
                  exact List.mem_range.mpr (hbd x hx)
                refine (List.subperm_of_subset hnd hsub).perm_of_length_le ?_
                rw [List.length_range, hlen]
              · rw [if_neg hlen] at h
                cases h

/-- C3 witness: the concrete planner run of the counterexample registry
produces a permutation of `{0, 1}`. -/
theorem c3_write_order_perm_witness :
    exPlanWo.Perm (List.range exPbPlan.object_list.length) :=
  c3_write_order_perm [] exPbPlan exPlanWo exPlanPb rfl

/-! ## C5: the precondition order of `try_delta` -/

theorem try_delta_accept_ret (E : Ext) (pb : Packbuilder) (trg src : Unpacked)
    (ti si : Nat) (tO sO : Pobject) (max_size trg_size src_size mem : Nat)
    (out : TryDeltaOut)
    (h : try_delta_accept E pb trg src ti si tO sO max_size trg_size src_size mem
      = .ok out) :
    out.ret = 0 ∨ out.ret = 1 := by
  unfold try_delta_accept at h
  simp only [bind, Except.bind, pure, Except.pure] at h
  repeat' (first
    | exact Except.noConfusion h
    | exact Option.noConfusion h
    | (cases h; simp)
    | split at h)

/-- C5: `try_delta` applies its precondition checks in the stated order.
It reports a type mismatch (`ret = -1`, and only then) exactly when the
two types differ, leaving all state untouched; with equal types it skips
(`ret = 0`, untouched) when the source slot depth has reached the depth
budget; otherwise it computes `max_size` as `target.size/2 - 20` with
`ref_depth = 1` when the target has no current delta and as
`target.delta_size` with `ref_depth = target.depth` (the slot depth)
otherwise, scales it by `(max_depth - src.depth) / (max_depth - ref_depth
+ 1)` in unsigned arithmetic and skips when the result is 0; then it skips
when `max(0, target.size - source.size) ≥ max_size`; and then it skips
when `target.size < source.size / 32`.  A mismatch also terminates the
inner window search: `window_search` returns at once with the best base
unchanged. -/
theorem c5_try_delta_preconditions (E : Ext) (pb : Packbuilder)
    (trg src : Unpacked) (max_depth mem ti si : Nat) (tO sO : Pobject)
    (hti : trg.object = some ti) (hsi : src.object = some si)
    (htO : pb.object_list[ti]? = some tO) (hsO : pb.object_list[si]? = some sO) :
    ((tO.ty ≠ sO.ty →
      try_delta E pb trg src max_depth mem = .ok ⟨pb, trg, src, mem, -1⟩) ∧
     (tO.ty = sO.ty → ∀ out, try_delta E pb trg src max_depth mem = .ok out →
      out.ret = 0 ∨ out.ret = 1)) ∧
    (tO.ty = sO.ty → src.depth ≥ max_depth →
      try_delta E pb trg src max_depth mem = .ok ⟨pb, trg, src, mem, 0⟩) ∧
    (∀ msize, tO.ty = sO.ty → src.depth < max_depth →
      (tO.delta = none →
        msize = sub64 (tO.size % W64 / 2) 20 * sub32 max_depth src.depth % W64 /
          ((sub32 max_depth 1 + 1) % W32) →
        ((msize = 0 →
          try_delta E pb trg src max_depth mem = .ok ⟨pb, trg, src, mem, 0⟩) ∧
         (msize ≠ 0 →
          (if sO.size % W64 < tO.size % W64 then tO.size % W64 - sO.size % W64
           else 0) ≥ msize →
          try_delta E pb trg src max_depth mem = .ok ⟨pb, trg, src, mem, 0⟩) ∧
         (msize ≠ 0 →
          (if sO.size % W64 < tO.size % W64 then tO.size % W64 - sO.size % W64
           else 0) < msize →
          tO.size % W64 < sO.size % W64 / 32 →
          try_delta E pb trg src max_depth mem = .ok ⟨pb, trg, src, mem, 0⟩))) ∧
      (∀ b, tO.delta = some b →
        msize = tO.delta_size % W64 * sub32 max_depth src.depth % W64 /
          ((sub32 max_depth (trg.depth % W32) + 1) % W32) →
        ((msize = 0 →
          try_delta E pb trg src max_depth mem = .ok ⟨pb, trg, src, mem, 0⟩) ∧
         (msize ≠ 0 →
          (if sO.size % W64 < tO.size % W64 then tO.size % W64 - sO.size % W64
           else 0) ≥ msize →
          try_delta E pb trg src max_depth mem = .ok ⟨pb, trg, src, mem, 0⟩) ∧
         (msize ≠ 0 →
          (if sO.size % W64 < tO.size % W64 then tO.size % W64 - sO.size % W64
           else 0) < msize →
          tO.size % W64 < sO.size % W64 / 32 →
          try_delta E pb trg src max_depth mem = .ok ⟨pb, trg, src, mem, 0⟩)))) ∧
    (∀ (window md j : Nat) (st : FdState) (bb : Option Nat) (m : Unpacked)
      (outm : TryDeltaOut),
      st.slots[(st.aidx + (j + 1)) % window]? = some m →
      m.object.isSome →
      try_delta E st.pb ((st.slots[st.aidx]?).getD empty_unpacked) m md st.mem
        = .ok outm →
      outm.ret = -1 →
      window_search E window md (j + 1) st bb =
        ({ st with
           pb := outm.pb
           mem := outm.mem
           slots := (st.slots.set st.aidx outm.trg).set
             ((st.aidx + (j + 1)) % window) outm.src }, bb, none)) := by
  have hunf : try_delta E pb trg src max_depth mem =
      (if tO.ty ≠ sO.ty then .ok ⟨pb, trg, src, mem, -1⟩
       else if src.depth ≥ max_depth then .ok ⟨pb, trg, src, mem, 0⟩
       else
        let trg_size := tO.size % W64
        let ms_rd :=
          match tO.delta with
          | none => (sub64 (trg_size / 2) 20, 1)
          | some _ => (tO.delta_size % W64, trg.depth % W32)
        let d1 := sub32 max_depth src.depth
        let d2 := (sub32 max_depth ms_rd.2 + 1) % W32
        let max_size := ms_rd.1 * d1 % W64 / d2
        if max_size = 0 then .ok ⟨pb, trg, src, mem, 0⟩
        else
          let src_size := sO.size % W64
          let sizediff := if src_size < trg_size then trg_size - src_size else 0
          if sizediff ≥ max_size then .ok ⟨pb, trg, src, mem, 0⟩
          else if trg_size < src_size / 32 then .ok ⟨pb, trg, src, mem, 0⟩
          else try_delta_accept E pb trg src ti si tO sO
                 max_size trg_size src_size mem) := by
    unfold try_delta
    rw [hti, hsi]
    dsimp only
    rw [htO, hsO]
  refine ⟨⟨?_, ?_⟩, ?_, ?_, ?_⟩
  · intro hne
    rw [hunf, if_pos hne]
  · intro hty out hout
    rw [hunf, if_neg (by simp [hty])] at hout
    dsimp only at hout
    repeat' (first
      | exact Except.noConfusion hout
      | (cases hout; simp)
      | split at hout
      | exact try_delta_accept_ret E pb trg src ti si tO sO _ _ _ mem out hout)
  · intro hty hdep
    rw [hunf, if_neg (by simp [hty]), if_pos hdep]
  · intro msize hty hdep
    constructor
    · intro hdel hms
      rw [hunf, if_neg (by simp [hty]), if_neg (by omega)]
      dsimp only
      rw [hdel]
      dsimp only
      rw [← hms]
      refine ⟨?_, ?_, ?_⟩
      · intro h0; rw [if_pos h0]
      · intro hne hge
        rw [if_neg hne, if_pos hge]
      · intro hne hlt h32
        rw [if_neg hne, if_neg (by omega), if_pos h32]
    · intro b hdel hms
      rw [hunf, if_neg (by simp [hty]), if_neg (by omega)]
      dsimp only
      rw [hdel]
      dsimp only
      rw [← hms]
      refine ⟨?_, ?_, ?_⟩
      · intro h0; rw [if_pos h0]
      · intro hne hge
        rw [if_neg hne, if_pos hge]
      · intro hne hlt h32
        rw [if_neg hne, if_neg (by omega), if_pos h32]
  · intro window md j st bb m outm hm hmobj htd hret
    obtain ⟨v, hv⟩ := Option.isSome_iff_exists.mp hmobj
    unfold window_search
    dsimp only
    rw [hm]
    dsimp only
    rw [if_neg (by rw [hv]; simp)]
    rw [htd]
    dsimp only
    rw [if_pos (show outm.ret < 0 by rw [hret]; decide)]

/-- C5 witness: a commit target against a blob source is reported as a
type mismatch with no state change. -/
theorem c5_try_delta_preconditions_witness :
    try_delta exExt exPbMix exSlotT exSlotS 50 0 =
      .ok ⟨exPbMix, exSlotT, exSlotS, 0, -1⟩ :=
  (c5_try_delta_preconditions exExt exPbMix exSlotT exSlotS 50 0 0 1
    (mk_pobject exOid1 OBJ_COMMIT 60 0) (mk_pobject exOid2 OBJ_BLOB 60 0)
    rfl rfl rfl rfl).1.1 (by decide)

/-! ## Registry length preservation through `prepare_pack` -/

theorem try_delta_accept_length (E : Ext) (pb : Packbuilder) (trg src : Unpacked)
    (ti si : Nat) (tO sO : Pobject) (max_size trg_size src_size mem : Nat)
    (out : TryDeltaOut)
    (h : try_delta_accept E pb trg src ti si tO sO max_size trg_size src_size mem
      = .ok out) :
    out.pb.object_list.length = pb.object_list.length := by
  unfold try_delta_accept at h
  simp only [bind, Except.bind, pure, Except.pure] at h
  repeat' (first
    | exact Except.noConfusion h
    | exact Option.noConfusion h
    | (cases h; (repeat' split) <;> simp)
    | split at h)

theorem try_delta_length (E : Ext) (pb : Packbuilder) (trg src : Unpacked)
    (max_depth mem : Nat) (out : TryDeltaOut)
    (h : try_delta E pb trg src max_depth mem = .ok out) :
    out.pb.object_list.length = pb.object_list.length := by
  unfold try_delta at h
  repeat' (first
    | exact Except.noConfusion h
    | (cases h; rfl)
    | (dsimp only at h)
    | split at h
    | exact try_delta_accept_length E pb trg src _ _ _ _ _ _ _ mem out h)

theorem window_search_length (E : Ext) (window md : Nat) :
    ∀ (j : Nat) (st : FdState) (bb : Option Nat),
      (window_search E window md j st bb).1.pb.object_list.length =
        st.pb.object_list.length := by
  intro j
  induction j with
  | zero => intro st bb; rfl
  | succ j ih =>
    intro st bb
    unfold window_search
    dsimp only
    cases hs : st.slots[(st.aidx + (j + 1)) % window]? with
    | none => rfl
    | some m =>
      dsimp only
      by_cases hm : m.object.isNone
      · rw [if_pos hm]
      · rw [if_neg hm]
        cases htd : try_delta E st.pb ((st.slots[st.aidx]?).getD empty_unpacked)
            m md st.mem with
        | error e => rfl
        | ok out =>
          dsimp only
          have hlen := try_delta_length E st.pb _ m md st.mem out htd
          by_cases hneg : out.ret < 0
          · rw [if_pos hneg]
            exact hlen
          · rw [if_neg hneg]
            by_cases hpos : out.ret > 0
            · rw [if_pos hpos, ih]
              exact hlen
            · rw [if_neg hpos, ih]
              exact hlen

theorem find_deltas_step_length (E : Ext) (window oi md : Nat) (st : FdState) :
    (find_deltas_step E window oi md st).1.pb.object_list.length =
      st.pb.object_list.length := by
  unfold find_deltas_step
  have hws := window_search_length E window md (window - 1) st none
  cases hr : window_search E window md (window - 1) st none with
  | mk st1 rest =>
    rw [hr] at hws
    obtain ⟨bb, err⟩ := rest
    cases err with
    | some e => exact hws
    | none =>
      dsimp only
      cases hpo : st1.pb.object_list[oi]? with
      | none => exact hws
      | some po =>
        dsimp only
        cases hdd : po.delta_data with
        | none =>
          dsimp only
          split
          · exact hws
          · split
            · cases bb with
              | none => exact hws
              | some b => exact hws
            · exact hws
        | some d =>
          dsimp only
          split
          · simpa using hws
          · split
            · cases bb with
              | none => simpa using hws
              | some b => simpa using hws
            · simpa using hws

theorem fd_evict_pb (window : Nat) :
    ∀ (k : Nat) (st : FdState), (fd_evict window k st).pb = st.pb := by
  intro k
  induction k with
  | zero => intro st; rfl
  | succ k ih =>
    intro st
    unfold fd_evict
    split
    · dsimp only
      split
      · rfl
      · rw [ih]
    · rfl

theorem find_deltas_go_length (E : Ext) (window depth : Nat) :
    ∀ (list : List Nat) (st : FdState),
      (find_deltas_go E window depth list st).1.pb.object_list.length =
        st.pb.object_list.length := by
  intro list
  induction list with
  | nil => intro st; rfl
  | cons oi rest ih =>
    intro st
    unfold find_deltas_go
    dsimp only
    split
    · rw [fd_evict_pb]
    · split
      · rw [fd_evict_pb]
      · rw [ih]
        dsimp only [fd_advance]
        rw [fd_evict_pb]
      · split
        · rename_i st' x e heq
          have h2 := congrArg
            (fun p : FdState × Bool × Option FdErr => p.1.pb.object_list.length) heq
          dsimp only at h2
          rw [find_deltas_step_length, fd_evict_pb] at h2
          exact h2.symm
        · rename_i st' adv heq
          have h2 := congrArg
            (fun p : FdState × Bool × Option FdErr => p.1.pb.object_list.length) heq
          dsimp only at h2
          rw [find_deltas_step_length, fd_evict_pb] at h2
          rw [ih]
          cases adv with
          | true =>
            rw [if_pos rfl]
            dsimp only [fd_advance]
            exact h2.symm
          | false =>
            rw [if_neg Bool.false_ne_true]
            exact h2.symm

theorem find_deltas_length (E : Ext) (pb : Packbuilder) (list : List Nat)
    (window depth : Nat) :
    (find_deltas E pb list window depth).1.object_list.length =
      pb.object_list.length := by
  show (find_deltas_go E window depth list
      { pb := pb, slots := List.replicate window empty_unpacked,
        aidx := 0, count := 0, mem := 0 }).1.pb.object_list.length =
    pb.object_list.length
  rw [find_deltas_go_length]

theorem ll_find_deltas_length (E : Ext) (pb : Packbuilder) (list : List Nat)
    (window depth : Nat) :
    (ll_find_deltas E pb list window depth).1.object_list.length =
      pb.object_list.length := by
  unfold ll_find_deltas
  by_cases ht : pb.nr_threads = 1
  · rw [if_pos ht]
    have h1 := find_deltas_length E pb list window depth
    generalize hgen : find_deltas E pb list window depth = r at h1 ⊢
    obtain ⟨pb1, err⟩ := r
    cases err with
    | none => exact h1
    | some e =>
      show (if fd_err_is_ub e = true then (pb1, some e) else (pb1, none)).1.object_list.length
        = pb.object_list.length
      split
      · exact h1
      · exact h1
  · rw [if_neg ht]

theorem get_object_details_length (pb : Packbuilder) :
    (get_object_details pb).object_list.length = pb.object_list.length := by
  unfold get_object_details
  simp

theorem prepare_pack_length (E : Ext) (pb : Packbuilder) :
    (prepare_pack E pb).1.object_list.length = pb.object_list.length := by
  simp only [prepare_pack]
  by_cases h0 : pb.object_list.length = 0 ∨ pb.done
  · rw [if_pos h0]
  · rw [if_neg h0]
    by_cases hdl : 1 < (prepare_delta_list (get_object_details pb)).length
    · rw [if_pos hdl]
      have hll := ll_find_deltas_length E (get_object_details pb)
        (sort_delta_list (get_object_details pb).object_list
          (prepare_delta_list (get_object_details pb)))
        (GIT_PACK_WINDOW + 1) GIT_PACK_DEPTH
      have hgd := get_object_details_length pb
      split
      · exact hll.trans hgd
      · exact hll.trans hgd
    · rw [if_neg hdl]
      exact get_object_details_length pb

/-! ## The delta phase never touches the session hash context -/

theorem try_delta_accept_hctx (E : Ext) (pb : Packbuilder) (trg src : Unpacked)
    (ti si : Nat) (tO sO : Pobject) (max_size trg_size src_size mem : Nat)
    (out : TryDeltaOut)
    (h : try_delta_accept E pb trg src ti si tO sO max_size trg_size src_size mem
      = .ok out) :
    out.pb.hctx = pb.hctx := by
  unfold try_delta_accept at h
  simp only [bind, Except.bind, pure, Except.pure] at h
  repeat' (first
    | exact Except.noConfusion h
    | exact Option.noConfusion h
    | (cases h; (repeat' split) <;> simp)
    | split at h)

theorem try_delta_hctx (E : Ext) (pb : Packbuilder) (trg src : Unpacked)
    (max_depth mem : Nat) (out : TryDeltaOut)
    (h : try_delta E pb trg src max_depth mem = .ok out) :
    out.pb.hctx = pb.hctx := by
  unfold try_delta at h
  repeat' (first
    | exact Except.noConfusion h
    | (cases h; rfl)
    | (dsimp only at h)
    | split at h
    | exact try_delta_accept_hctx E pb trg src _ _ _ _ _ _ _ mem out h)

theorem window_search_hctx (E : Ext) (window md : Nat) :
    ∀ (j : Nat) (st : FdState) (bb : Option Nat),
      (window_search E window md j st bb).1.pb.hctx = st.pb.hctx := by
  intro j
  induction j with
  | zero => intro st bb; rfl
  | succ j ih =>
    intro st bb
    unfold window_search
    dsimp only
    cases hs : st.slots[(st.aidx + (j + 1)) % window]? with
    | none => rfl
    | some m =>
      dsimp only
      by_cases hm : m.object.isNone
      · rw [if_pos hm]
      · rw [if_neg hm]
        cases htd : try_delta E st.pb ((st.slots[st.aidx]?).getD empty_unpacked)
            m md st.mem with
        | error e => rfl
        | ok out =>
          dsimp only
          have hlen := try_delta_hctx E st.pb _ m md st.mem out htd
          by_cases hneg : out.ret < 0
          · rw [if_pos hneg]
            exact hlen
          · rw [if_neg hneg]
            by_cases hpos : out.ret > 0
            · rw [if_pos hpos, ih]
              exact hlen
            · rw [if_neg hpos, ih]
              exact hlen

theorem find_deltas_step_hctx (E : Ext) (window oi md : Nat) (st : FdState) :
    (find_deltas_step E window oi md st).1.pb.hctx = st.pb.hctx := by
  unfold find_deltas_step
  have hws := window_search_hctx E window md (window - 1) st none
  cases hr : window_search E window md (window - 1) st none with
  | mk st1 rest =>
    rw [hr] at hws
    obtain ⟨bb, err⟩ := rest
    cases err with
    | some e => exact hws
    | none =>
      dsimp only
      cases hpo : st1.pb.object_list[oi]? with
      | none => exact hws
      | some po =>
        dsimp only
        cases hdd : po.delta_data with
        | none =>
          dsimp only
          split
          · exact hws
          · split
            · cases bb with
              | none => exact hws
              | some b => exact hws
            · exact hws
        | some d =>
          dsimp only
          split
          · simpa using hws
          · split
            · cases bb with
              | none => simpa using hws
              | some b => simpa using hws
            · simpa using hws

theorem find_deltas_go_hctx (E : Ext) (window depth : Nat) :
    ∀ (list : List Nat) (st : FdState),
      (find_deltas_go E window depth list st).1.pb.hctx = st.pb.hctx := by
  intro list
  induction list with
  | nil => intro st; rfl
  | cons oi rest ih =>
    intro st
    unfold find_deltas_go
    dsimp only
    split
    · rw [fd_evict_pb]
    · split
      · rw [fd_evict_pb]
      · rw [ih]
        dsimp only [fd_advance]
        rw [fd_evict_pb]
      · split
        · rename_i st' x e heq
          have h2 := congrArg
            (fun p : FdState × Bool × Option FdErr => p.1.pb.hctx) heq
          dsimp only at h2
          rw [find_deltas_step_hctx, fd_evict_pb] at h2
          exact h2.symm
        · rename_i st' adv heq
          have h2 := congrArg
            (fun p : FdState × Bool × Option FdErr => p.1.pb.hctx) heq
          dsimp only at h2
          rw [find_deltas_step_hctx, fd_evict_pb] at h2
          rw [ih]
          cases adv with
          | true =>
            rw [if_pos rfl]
            dsimp only [fd_advance]
            exact h2.symm
          | false =>
            rw [if_neg Bool.false_ne_true]
            exact h2.symm

theorem find_deltas_hctx (E : Ext) (pb : Packbuilder) (list : List Nat)
    (window depth : Nat) :
    (find_deltas E pb list window depth).1.hctx = pb.hctx := by
  show (find_deltas_go E window depth list
      { pb := pb, slots := List.replicate window empty_unpacked,
        aidx := 0, count := 0, mem := 0 }).1.pb.hctx = pb.hctx
  rw [find_deltas_go_hctx]

theorem ll_find_deltas_hctx (E : Ext) (pb : Packbuilder) (list : List Nat)
    (window depth : Nat) :
    (ll_find_deltas E pb list window depth).1.hctx = pb.hctx := by
  unfold ll_find_deltas
  by_cases ht : pb.nr_threads = 1
  · rw [if_pos ht]
    have h1 := find_deltas_hctx E pb list window depth
    generalize hgen : find_deltas E pb list window depth = r at h1 ⊢
    obtain ⟨pb1, err⟩ := r
    cases err with
    | none => exact h1
    | some e =>
      show (if fd_err_is_ub e = true then (pb1, some e) else (pb1, none)).1.hctx
        = pb.hctx
      split
      · exact h1
      · exact h1
  · rw [if_neg ht]

theorem get_object_details_hctx (pb : Packbuilder) :
    (get_object_details pb).hctx = pb.hctx := rfl

theorem prepare_pack_hctx (E : Ext) (pb : Packbuilder) :
    (prepare_pack E pb).1.hctx = pb.hctx := by
  simp only [prepare_pack]
  by_cases h0 : pb.object_list.length = 0 ∨ pb.done
  · rw [if_pos h0]
  · rw [if_neg h0]
    by_cases hdl : 1 < (prepare_delta_list (get_object_details pb)).length
    · rw [if_pos hdl]
      have hll := ll_find_deltas_hctx E (get_object_details pb)
        (sort_delta_list (get_object_details pb).object_list
          (prepare_delta_list (get_object_details pb)))
        (GIT_PACK_WINDOW + 1) GIT_PACK_DEPTH
      have hgd := get_object_details_hctx pb
      split
      · exact hll.trans hgd
      · exact hll.trans hgd
    · rw [if_neg hdl]
      exact get_object_details_hctx pb

/-- `compute_write_order` only replaces the registry of the builder it
returns; every other session field, the hash context included, is that
of the input. -/
theorem compute_write_order_shape {tags : List Oid} {pb : Packbuilder}
    {wo : List Nat} {pb' : Packbuilder}
    (h : compute_write_order tags pb = some (wo, pb')) :
    ∃ es, pb' = { pb with object_list := es } := by
  simp only [compute_write_order] at h
  repeat' (first
    | exact Option.noConfusion h
    | split at h)
  injection h with h1
  exact ⟨_, (congrArg Prod.snd h1).symm⟩

/-! ## The planner changes only its scratch fields -/

theorem same_core_refl (es : List Pobject) : same_core es es := rfl

theorem same_core_trans {e1 e2 e3 : List Pobject} :
    same_core e1 e2 → same_core e2 e3 → same_core e1 e3 :=
  fun h1 h2 => h2.trans h1

theorem same_core_set {es : List Pobject} {i : Nat} {po po' : Pobject}
    (hpo : es[i]? = some po)
    (hf : erase_plan_flags po' = erase_plan_flags po) :
    same_core es (es.set i po') := by
  unfold same_core
  refine List.ext_getElem? fun j => ?_
  rw [List.getElem?_map, List.getElem?_map]
  by_cases hji : j = i
  · subst hji
    rw [List.getElem?_set_eq_of_lt _ (List.getElem?_eq_some_iff.mp hpo).1, hpo]
    simp [hf]
  · rw [List.getElem?_set_ne (fun he => hji he.symm)]

theorem same_core_field {α : Type} (f : Pobject → α)
    (hf : ∀ p, f (erase_plan_flags p) = f p)
    {es es' : List Pobject} (h : same_core es es') (k : Nat) :
    (es'[k]?).map f = (es[k]?).map f := by
  have h2 : ((es'.map erase_plan_flags)[k]?).map f
      = ((es.map erase_plan_flags)[k]?).map f := by rw [h]
  rw [List.getElem?_map, List.getElem?_map, Option.map_map, Option.map_map] at h2
  have hc : f ∘ erase_plan_flags = f := funext hf
  rw [hc] at h2
  exact h2

theorem same_core_length {es es' : List Pobject} (h : same_core es es') :
    es'.length = es.length := by
  have := congrArg List.length h
  simpa using this

theorem same_core_reset (es : List Pobject) : same_core es (cwo_reset es) := by
  unfold same_core cwo_reset
  rw [List.map_map]
  rfl

theorem same_core_forest_step {es es' : List Pobject} {i : Nat}
    (h : cwo_forest_step es i = some es') : same_core es es' := by
  unfold cwo_forest_step at h
  cases hpo : es[i]? with
  | none => simp only [hpo] at h; exact Option.noConfusion h
  | some po =>
    simp only [hpo] at h
    cases hd : po.delta with
    | none => simp only [hd] at h; cases h; exact same_core_refl es
    | some b =>
      simp only [hd] at h
      cases hb : es[b]? with
      | none => simp only [hb] at h; exact Option.noConfusion h
      | some bpo =>
        simp only [hb] at h
        cases hb1 : (es.set i
            { po with delta := some b, delta_sibling := bpo.delta_child })[b]? with
        | none => simp only [hb1] at h; exact Option.noConfusion h
        | some bpo1 =>
          simp only [hb1] at h
          cases h
          refine same_core_trans
            (show same_core es (es.set i
              { po with delta := some b, delta_sibling := bpo.delta_child }) from
              same_core_set hpo (by rw [← hd]; rfl)) ?_
          exact same_core_set hb1 rfl

theorem same_core_forest_go :
    ∀ (l : List Nat) (es es' : List Pobject),
      cwo_forest_go l es = some es' → same_core es es' := by
  intro l
  induction l with
  | nil => intro es es' h; cases h; exact same_core_refl es
  | cons i l ih =>
    intro es es' h
    unfold cwo_forest_go at h
    cases hs : cwo_forest_step es i with
    | none => simp only [hs] at h; exact Option.noConfusion h
    | some es1 =>
      simp only [hs] at h
      exact same_core_trans (same_core_forest_step hs) (ih _ _ h)

theorem same_core_mark_step (es : List Pobject) (t : Oid) :
    same_core es (cwo_mark_step es t) := by
  unfold cwo_mark_step
  cases hf : es.findIdx? (fun po => decide (po.id = t)) with
  | none => exact same_core_refl es
  | some i =>
    dsimp only
    cases hpo : es[i]? with
    | none => simp only [hpo]; exact same_core_refl es
    | some po => simp only [hpo]; exact same_core_set hpo rfl

theorem same_core_mark_tags :
    ∀ (tags : List Oid) (es : List Pobject),
      same_core es (cwo_mark_tags tags es) := by
  intro tags
  induction tags with
  | nil => intro es; exact same_core_refl es
  | cons t ts ih =>
    intro es
    exact same_core_trans (same_core_mark_step es t) (ih _)

theorem same_core_add {es0 : List Pobject} {st st' : List Nat × List Pobject}
    {i : Nat} (hsc : same_core es0 st.2)
    (h : add_to_write_order st.1 st.2 i = some st') : same_core es0 st'.2 := by
  unfold add_to_write_order at h
  cases hpo : st.2[i]? with
  | none => simp only [hpo] at h; exact Option.noConfusion h
  | some po =>
    simp only [hpo] at h
    by_cases hf : po.filled
    · rw [if_pos hf] at h
      cases h
      exact hsc
    · rw [if_neg hf] at h
      cases h
      exact same_core_trans hsc (same_core_set hpo rfl)

theorem same_core_sibling_walk {es0 : List Pobject} :
    ∀ (fuel : Nat) (ch : Option Nat) (st st' : List Nat × List Pobject),
      same_core es0 st.2 → add_sibling_walk fuel st ch = some st' →
      same_core es0 st'.2 := by
  intro fuel
  induction fuel with
  | zero =>
    intro ch st st' hsc h
    cases ch with
    | none => cases h; exact hsc
    | some s => cases h
  | succ fuel ih =>
    intro ch st st' hsc h
    cases ch with
    | none => cases h; exact hsc
    | some s =>
      unfold add_sibling_walk at h
      cases hadd : add_to_write_order st.1 st.2 s with
      | none => simp only [hadd] at h; exact Option.noConfusion h
      | some st1 =>
        simp only [hadd] at h
        exact ih _ _ _ (same_core_add hsc hadd) h

theorem same_core_desc {es0 : List Pobject} :
    ∀ (fuel : Nat) (st : List Nat × List Pobject) (i : Nat) (addOrd : Bool)
      (st' : List Nat × List Pobject),
      same_core es0 st.2 → add_descendants_to_write_order fuel st i addOrd = some st' →
      same_core es0 st'.2 := by
  intro fuel
  induction fuel with
  | zero => intro st i addOrd st' _ h; cases h
  | succ fuel ih =>
    intro st i addOrd st' hsc h
    unfold add_descendants_to_write_order at h
    cases hpo : st.2[i]? with
    | none => simp only [hpo] at h; exact Option.noConfusion h
    | some po0 =>
      simp only [hpo] at h
      have hstep : ∀ st2, (if addOrd then
          match add_to_write_order st.1 st.2 i with
          | none => none
          | some st1 => add_sibling_walk fuel st1 po0.delta_sibling
        else some st) = some st2 → same_core es0 st2.2 := by
        intro st2 hs
        cases addOrd with
        | false => rw [if_neg Bool.false_ne_true] at hs; cases hs; exact hsc
        | true =>
          rw [if_pos rfl] at hs
          cases hadd : add_to_write_order st.1 st.2 i with
          | none => simp only [hadd] at hs; exact Option.noConfusion hs
          | some st1 =>
            simp only [hadd] at hs
            exact same_core_sibling_walk fuel _ _ _ (same_core_add hsc hadd) hs
      cases hs : (if addOrd then
          match add_to_write_order st.1 st.2 i with
          | none => none
          | some st1 => add_sibling_walk fuel st1 po0.delta_sibling
        else some st) with
      | none => simp only [hs] at h; exact Option.noConfusion h
      | some st2 =>
        simp only [hs] at h
        have hsc2 := hstep st2 hs
        cases hch : po0.delta_child with
        | some c => simp only [hch] at h; exact ih _ _ _ _ hsc2 h
        | none =>
          simp only [hch] at h
          cases hsib : po0.delta_sibling with
          | some s => simp only [hsib] at h; exact ih _ _ _ _ hsc2 h
          | none =>
            simp only [hsib] at h
            cases hcl : climb_walk st2.2 fuel po0.delta with
            | none => simp only [hcl] at h; exact Option.noConfusion h
            | some j? =>
              simp only [hcl] at h
              cases j? with
              | none => cases h; exact hsc2
              | some j =>
                cases hsb : (st2.2[j]?).bind Pobject.delta_sibling with
                | none => simp only [hsb] at h; exact Option.noConfusion h
                | some s =>
                  simp only [hsb] at h
                  exact ih _ _ _ _ hsc2 h

theorem same_core_family {es0 : List Pobject} (fuel : Nat)
    {st st' : List Nat × List Pobject} {i : Nat}
    (hsc : same_core es0 st.2) (h : add_family_to_write_order fuel st i = some st') :
    same_core es0 st'.2 := by
  unfold add_family_to_write_order at h
  cases hr : find_root st.2 fuel i with
  | none => simp only [hr] at h; exact Option.noConfusion h
  | some root =>
    simp only [hr] at h
    exact same_core_desc fuel _ _ _ _ hsc h

theorem same_core_stage4 {es0 : List Pobject} :
    ∀ (r i : Nat) (st st' : List Nat × List Pobject) (lu : Nat),
      same_core es0 st.2 → cwo_stage4 r i st = some (st', lu) →
      same_core es0 st'.2 := by
  intro r
  induction r with
  | zero => intro i st st' lu hsc h; cases h; exact hsc
  | succ r ih =>
    intro i st st' lu hsc h
    unfold cwo_stage4 at h
    cases hpo : st.2[i]? with
    | none => simp only [hpo] at h; exact Option.noConfusion h
    | some po =>
      simp only [hpo] at h
      by_cases ht : po.tagged
      · rw [if_pos ht] at h; cases h; exact hsc
      · rw [if_neg ht] at h
        cases hadd : add_to_write_order st.1 st.2 i with
        | none => simp only [hadd] at h; exact Option.noConfusion h
        | some st1 =>
          simp only [hadd] at h
          exact ih _ _ _ _ (same_core_add hsc hadd) h

theorem same_core_add_if {es0 : List Pobject} (cond : Pobject → Bool) :
    ∀ (idxs : List Nat) (st st' : List Nat × List Pobject),
      same_core es0 st.2 → cwo_add_if cond idxs st = some st' →
      same_core es0 st'.2 := by
  intro idxs
  induction idxs with
  | nil => intro st st' hsc h; cases h; exact hsc
  | cons i idxs ih =>
    intro st st' hsc h
    unfold cwo_add_if at h
    cases hpo : st.2[i]? with
    | none => simp only [hpo] at h; exact Option.noConfusion h
    | some po =>
      simp only [hpo] at h
      by_cases hc : cond po
      · rw [if_pos hc] at h
        cases hadd : add_to_write_order st.1 st.2 i with
        | none => simp only [hadd] at h; exact Option.noConfusion h
        | some st1 =>
          simp only [hadd] at h
          exact ih _ _ (same_core_add hsc hadd) h
      · rw [if_neg hc] at h
        exact ih _ _ hsc h

theorem same_core_stage8 {es0 : List Pobject} (fuel : Nat) :
    ∀ (idxs : List Nat) (st st' : List Nat × List Pobject),
      same_core es0 st.2 → cwo_stage8 fuel idxs st = some st' →
      same_core es0 st'.2 := by
  intro idxs
  induction idxs with
  | nil => intro st st' hsc h; cases h; exact hsc
  | cons i idxs ih =>
    intro st st' hsc h
    unfold cwo_stage8 at h
    cases hpo : st.2[i]? with
    | none => simp only [hpo] at h; exact Option.noConfusion h
    | some po =>
      simp only [hpo] at h
      by_cases hf : po.filled
      · rw [if_pos hf] at h
        exact ih _ _ hsc h
      · rw [if_neg hf] at h
        cases hfam : add_family_to_write_order fuel st i with
        | none => simp only [hfam] at h; exact Option.noConfusion h
        | some st1 =>
          simp only [hfam] at h
          exact ih _ _ (same_core_family fuel hsc hfam) h

/-- `compute_write_order` rewrites only the planner scratch fields: the
returned builder's registry agrees with the input registry on every other
field of every entry. -/
theorem compute_write_order_core {tags : List Oid} {pb : Packbuilder}
    {wo : List Nat} {pb' : Packbuilder}
    (h : compute_write_order tags pb = some (wo, pb')) :
    same_core pb.object_list pb'.object_list := by
  unfold compute_write_order at h
  cases hfo : cwo_forest (cwo_reset pb.object_list) with
  | none => simp only [hfo] at h; exact Option.noConfusion h
  | some es1 =>
    simp only [hfo] at h
    have hsc1 : same_core pb.object_list es1 :=
      same_core_trans (same_core_reset pb.object_list)
        (same_core_forest_go _ _ _ hfo)
    have hsc2 : same_core pb.object_list (cwo_mark_tags tags es1) :=
      same_core_trans hsc1 (same_core_mark_tags tags es1)
    cases h4 : cwo_stage4 pb.object_list.length 0 ([], cwo_mark_tags tags es1) with
    | none => simp only [h4] at h; exact Option.noConfusion h
    | some r4 =>
      obtain ⟨st4, lu⟩ := r4
      simp only [h4] at h
      have hsc4 := same_core_stage4 _ _ _ _ _ hsc2 h4
      cases h5 : cwo_add_if (fun po => po.tagged)
          (List.range' lu (pb.object_list.length - lu)) st4 with
      | none => simp only [h5] at h; exact Option.noConfusion h
      | some st5 =>
        simp only [h5] at h
        have hsc5 := same_core_add_if _ _ _ _ hsc4 h5
        cases h6 : cwo_add_if (fun po => po.ty == OBJ_COMMIT || po.ty == OBJ_TAG)
            (List.range' lu (pb.object_list.length - lu)) st5 with
        | none => simp only [h6] at h; exact Option.noConfusion h
        | some st6 =>
          simp only [h6] at h
          have hsc6 := same_core_add_if _ _ _ _ hsc5 h6
          cases h7 : cwo_add_if (fun po => po.ty == OBJ_TREE)
              (List.range' lu (pb.object_list.length - lu)) st6 with
          | none => simp only [h7] at h; exact Option.noConfusion h
          | some st7 =>
            simp only [h7] at h
            have hsc7 := same_core_add_if _ _ _ _ hsc6 h7
            cases h8 : cwo_stage8 ((pb.object_list.length + 1) *
                (pb.object_list.length + 1) + 7)
                (List.range' lu (pb.object_list.length - lu)) st7 with
            | none => simp only [h8] at h; exact Option.noConfusion h
            | some st8 =>
              simp only [h8] at h
              have hsc8 := same_core_stage8 _ _ _ _ hsc7 h8
              by_cases hlen : st8.1.length = pb.object_list.length
              · rw [if_pos hlen] at h
                cases h
                exact hsc8
              · rw [if_neg hlen] at h
                cases h

/-! ## Writer-state lemmas (`update_entry`, `write_object`, `write_one`) -/

theorem update_entry_length (st : WriteState) (i : Nat) (f : Pobject → Pobject) :
    (update_entry st i f).pb.object_list.length = st.pb.object_list.length := by
  unfold update_entry
  cases hpo : st.pb.object_list[i]? <;> simp [hpo]

theorem update_entry_eq {st : WriteState} {i : Nat} {f : Pobject → Pobject}
    {po : Pobject} (hpo : st.pb.object_list[i]? = some po) :
    (update_entry st i f).pb.object_list[i]? = some (f po) := by
  unfold update_entry
  simp only [hpo]
  exact List.getElem?_set_eq_of_lt _ (List.getElem?_eq_some_iff.mp hpo).1

theorem update_entry_ne (st : WriteState) (i : Nat) {f : Pobject → Pobject}
    (k : Nat) (hk : k ≠ i) :
    (update_entry st i f).pb.object_list[k]? = st.pb.object_list[k]? := by
  unfold update_entry
  cases hpo : st.pb.object_list[i]? with
  | none => rfl
  | some po =>
    simp only [hpo]
    exact List.getElem?_set_ne (fun he => hk he.symm)

theorem update_entry_lookup_none {st : WriteState} {i : Nat} (f : Pobject → Pobject)
    (hpo : st.pb.object_list[i]? = none) :
    (update_entry st i f).pb.object_list = st.pb.object_list := by
  unfold update_entry
  simp only [hpo]

theorem wext_refl (st : WriteState) : wext st st := by
  refine ⟨rfl, rfl, ⟨[], by simp, by simp⟩, ⟨[], by simp⟩, fun k => rfl, ?_⟩
  intro k pk h hw
  rw [h]
  simp [hw]

theorem wext_trans {s1 s2 s3 : WriteState} (h1 : wext s1 s2) (h2 : wext s2 s3) :
    wext s1 s3 := by
  obtain ⟨l1, o1, ⟨a1, b1, c1⟩, ⟨e1, r1⟩, i1, w1⟩ := h1
  obtain ⟨l2, o2, ⟨a2, b2, c2⟩, ⟨e2, r2⟩, i2, w2⟩ := h2
  refine ⟨l2.trans l1, o2.trans o1, ⟨a1 ++ a2, ?_, ?_⟩, ⟨e1 ++ e2, ?_⟩,
    fun k => (i2 k).trans (i1 k), ?_⟩
  · rw [b2, b1, List.append_assoc]
  · rw [c2, c1, List.append_assoc]
  · rw [r2, r1, List.append_assoc]
  · intro k pk hk hw
    have hw1 := w1 k pk hk hw
    cases hmid : s2.pb.object_list[k]? with
    | none => rw [hmid] at hw1; exact Option.noConfusion hw1
    | some pm =>
      rw [hmid] at hw1
      have hpm : pm.written = true := by
        simp only [Option.map_some'] at hw1
        exact Option.some.inj hw1
      exact w2 k pm hmid hpm

theorem wext_update (st : WriteState) (i : Nat) (f : Pobject → Pobject)
    (hid : ∀ p, (f p).id = p.id)
    (hw : ∀ p, p.written = true → (f p).written = true) :
    wext st (update_entry st i f) := by
  refine ⟨update_entry_length st i f, rfl,
    ⟨[], by rw [List.append_nil]; exact rfl, by rw [List.append_nil]; exact rfl⟩,
    ⟨[], by rw [List.append_nil]; exact rfl⟩, ?_, ?_⟩
  · intro k
    by_cases hki : k = i
    · subst hki
      cases hpo : st.pb.object_list[k]? with
      | none => rw [update_entry_lookup_none f hpo, hpo]
      | some po =>
        rw [update_entry_eq hpo]
        simp [hid]
    · rw [update_entry_ne st i k hki]
  · intro k pk hk hwk
    by_cases hki : k = i
    · subst hki
      rw [update_entry_eq hk]
      simp [hw pk hwk]
    · rw [update_entry_ne st i k hki, hk]
      simp [hwk]

theorem ids_written_update (st : WriteState) (i : Nat) (f : Pobject → Pobject)
    (hid : ∀ p, (f p).id = p.id) (hw : ∀ p, (f p).written = p.written)
    (h : ids_written st) : ids_written (update_entry st i f) := by
  intro k pk hk hwk
  by_cases hki : k = i
  · subst hki
    cases hpo : st.pb.object_list[k]? with
    | none =>
      rw [update_entry_lookup_none f hpo] at hk
      exact h k pk hk hwk
    | some po0 =>
      rw [update_entry_eq hpo] at hk
      have hpk : pk = f po0 := Option.some.inj hk.symm
      have hw0 : po0.written = true := by
        rw [← hw po0, ← hpk]
        exact hwk
      have := h k po0 hpo hw0
      rw [hpk, hid po0]
      exact this
  · rw [update_entry_ne st i k hki] at hk
    exact h k pk hk hwk

theorem recs_ok_append {recs : List (Oid × Option Oid)} (x : Oid) (base : Option Oid)
    (h : recs_ok recs)
    (hb : ∀ b : Oid, base = some b → b ∈ recs.map Prod.fst) :
    recs_ok (recs ++ [(x, base)]) := by
  intro i y b hi
  by_cases hlt : i < recs.length
  · rw [List.getElem?_append_left hlt] at hi
    obtain ⟨j, z, hj, hz, hzb⟩ := h i y b hi
    have hjlt : j < recs.length := (List.getElem?_eq_some_iff.mp hz).1
    exact ⟨j, z, hj, by rw [List.getElem?_append_left hjlt]; exact hz, hzb⟩
  · by_cases heq : i = recs.length
    · subst heq
      rw [List.getElem?_concat_length] at hi
      have hib : base = some b := congrArg Prod.snd (Option.some.inj hi)
      obtain ⟨z, hzmem, hzb⟩ := List.mem_map.mp (hb b hib)
      obtain ⟨j, hjlt, hjz⟩ := List.getElem_of_mem hzmem
      refine ⟨j, z, hjlt, ?_, hzb⟩
      rw [List.getElem?_append_left hjlt, List.getElem?_eq_getElem hjlt, hjz]
    · have hnone : (recs ++ [(x, base)])[i]? = none := by
        rw [List.getElem?_eq_none]
        simp only [List.length_append, List.length_singleton]
        omega
      rw [hnone] at hi
      exact Option.noConfusion hi

theorem write_object_fail {E : Ext} {st : WriteState} {i : Nat} {st' : WriteState}
    (h : write_object E st i = (st', false)) : st' = st := by
  unfold write_object at h
  cases hpo : st.pb.object_list[i]? with
  | none =>
    simp only [hpo] at h
    exact (Prod.mk.injEq _ _ _ _ ▸ h).1.symm
  | some po =>
    simp only [hpo] at h
    cases hsel : write_object_select E st.pb.object_list po with
    | none =>
      simp only [hsel] at h
      exact (Prod.mk.injEq _ _ _ _ ▸ h).1.symm
    | some sel =>
      obtain ⟨data, size, ty, base⟩ := sel
      simp only [hsel] at h
      cases base with
      | none =>
        have := (Prod.mk.injEq _ _ _ _ ▸ h).2
        exact absurd this (by simp)
      | some bid =>
        have := (Prod.mk.injEq _ _ _ _ ▸ h).2
        exact absurd this (by simp)

theorem write_object_select_base {E : Ext} {entries : List Pobject} {po : Pobject}
    {data : List Nat} {size ty : Nat} {base : Option Oid}
    (h : write_object_select E entries po = some (data, size, ty, base)) :
    (po.delta = none → base = none) ∧
    (∀ b : Nat, po.delta = some b →
      ∃ bpo : Pobject, entries[b]? = some bpo ∧ base = some bpo.id) := by
  unfold write_object_select at h
  constructor
  · intro hd
    simp only [hd] at h
    cases hodb : E.odb po.id with
    | none => simp only [hodb] at h; exact Option.noConfusion h
    | some od =>
      obtain ⟨oty, odata⟩ := od
      simp only [hodb] at h
      by_cases hty : oty = OBJ_REF_DELTA
      · rw [if_pos hty] at h; exact Option.noConfusion h
      · rw [if_neg hty] at h
        have := Option.some.inj h
        exact (congrArg (fun q => q.2.2.2) this).symm
  · intro b hd
    simp only [hd] at h
    cases hb : entries[b]? with
    | none => simp only [hb] at h; exact Option.noConfusion h
    | some bpo =>
      simp only [hb] at h
      refine ⟨bpo, rfl, ?_⟩
      cases hdd : po.delta_data with
      | some d =>
        simp only [hdd] at h
        have := Option.some.inj h
        exact (congrArg (fun q => q.2.2.2) this).symm
      | none =>
        simp only [hdd] at h
        cases hgd : get_delta E entries po with
        | error e => simp only [hgd] at h; exact Option.noConfusion h
        | ok d =>
          simp only [hgd] at h
          have := Option.some.inj h
          exact (congrArg (fun q => q.2.2.2) this).symm

theorem write_object_spec {E : Ext} {st : WriteState} {i : Nat} {st' : WriteState}
    (h : write_object E st i = (st', true)) :
    ∃ (po : Pobject) (data : List Nat) (size ty : Nat) (base : Option Oid),
      st.pb.object_list[i]? = some po ∧
      write_object_select E st.pb.object_list po = some (data, size, ty, base) ∧
      st'.pb.object_list = st.pb.object_list ∧
      st'.out = st.out ∧
      (∃ app, st'.buf = st.buf ++ app ∧ st'.hacc = st.hacc ++ app) ∧
      st'.recs = st.recs ++ [(po.id, base)] := by
  unfold write_object at h
  cases hpo : st.pb.object_list[i]? with
  | none =>
    simp only [hpo] at h
    exact absurd (Prod.mk.injEq _ _ _ _ ▸ h).2 (by simp)
  | some po =>
    simp only [hpo] at h
    cases hsel : write_object_select E st.pb.object_list po with
    | none =>
      simp only [hsel] at h
      exact absurd (Prod.mk.injEq _ _ _ _ ▸ h).2 (by simp)
    | some sel =>
      obtain ⟨data, size, ty, base⟩ := sel
      simp only [hsel] at h
      cases base with
      | none =>
        have hst : st' = _ := (Prod.mk.injEq _ _ _ _ ▸ h).1.symm
        subst hst
        refine ⟨po, data, size, ty, none, rfl, hsel, rfl, rfl,
          ⟨gen_pack_object_header size ty ++
            (if po.z_delta_size ≠ 0 then data.take po.z_delta_size
             else E.compress data), by simp, by simp⟩, rfl⟩
      | some bid =>
        have hst : st' = _ := (Prod.mk.injEq _ _ _ _ ▸ h).1.symm
        subst hst
        refine ⟨po, data, size, ty, some bid, rfl, hsel, rfl, rfl,
          ⟨gen_pack_object_header size ty ++ (bid ++
            (if po.z_delta_size ≠ 0 then data.take po.z_delta_size
             else E.compress data)), by simp, by simp⟩, rfl⟩

theorem write_one_recursing {E : Ext} (fuel : Nat) {st : WriteState} {i : Nat}
    {po : Pobject} (hpo : st.pb.object_list[i]? = some po)
    (hrec : po.recursing = true) {st' : WriteState} {r : Except Unit WStatus}
    (h : write_one E fuel st i = (st', r)) :
    st' = st ∧ (r = .error () ∨ r = .ok WStatus.recursive) := by
  cases fuel with
  | zero =>
    unfold write_one at h
    injection h with h1 h2
    exact ⟨h1.symm, Or.inl h2.symm⟩
  | succ fuel =>
    unfold write_one at h
    simp only [hpo] at h
    rw [if_pos hrec] at h
    injection h with h1 h2
    exact ⟨h1.symm, Or.inr h2.symm⟩

theorem update_entry_recs (st : WriteState) (i : Nat) (f : Pobject → Pobject) :
    (update_entry st i f).recs = st.recs := rfl

theorem write_one_tail (E : Ext) (st2 : WriteState) (i : Nat) (poMid : Pobject)
    (hMid : st2.pb.object_list[i]? = some poMid)
    (hdel : ∀ b : Nat, poMid.delta = some b → recs_ok st2.recs → ids_written st2 →
       b ≠ i ∧ ∃ bpo : Pobject, st2.pb.object_list[b]? = some bpo ∧ bpo.written = true)
    (st4 : WriteState) (wb : Bool)
    (hwo : write_object E (update_entry st2 i
      (fun p => { p with written := true, recursing := false })) i = (st4, wb)) :
    wext st2 st4 ∧
    (∀ k : Nat, k ≠ i → st4.pb.object_list[k]? = st2.pb.object_list[k]?) ∧
    (wb = true → (st4.pb.object_list[i]?).map Pobject.written = some true) ∧
    (wb = true → recs_ok st2.recs → ids_written st2 →
       recs_ok st4.recs ∧ ids_written st4) := by
  have hup : wext st2 (update_entry st2 i
      (fun p => { p with written := true, recursing := false })) :=
    wext_update st2 i _ (fun p => rfl) (fun p _ => rfl)
  have h3i := @update_entry_eq st2 i
    (fun p => { p with written := true, recursing := false }) poMid hMid
  cases wb with
  | false =>
    have hst4 := write_object_fail hwo
    subst hst4
    refine ⟨hup, fun k hk => update_entry_ne st2 i k hk, ?_, ?_⟩
    · intro habs; exact Bool.noConfusion habs
    · intro habs; exact Bool.noConfusion habs
  | true =>
    obtain ⟨po', data, size, ty, base, hpo', hsel, hlist, hout, happ, hrecs⟩ :=
      write_object_spec hwo
    have hpo3 : po' = { poMid with written := true, recursing := false } :=
      Option.some.inj (hpo'.symm.trans h3i)
    have hw34 : wext (update_entry st2 i
        (fun p => { p with written := true, recursing := false })) st4 := by
      refine ⟨by rw [hlist], hout, happ, ⟨[(po'.id, base)], hrecs⟩, ?_, ?_⟩
      · intro k; rw [hlist]
      · intro k pk hk hwk
        rw [hlist, hk]
        simp [hwk]
    refine ⟨wext_trans hup hw34, ?_, ?_, ?_⟩
    · intro k hk
      rw [hlist]
      exact update_entry_ne st2 i k hk
    · intro _
      rw [hlist, h3i]
      rfl
    · intro _ hro hidw
      constructor
      · rw [hrecs, update_entry_recs]
        refine recs_ok_append po'.id base hro ?_
        intro b hbase
        cases hdd : poMid.delta with
        | none =>
          have hnone := (write_object_select_base hsel).1 (by rw [hpo3]; exact hdd)
          rw [hnone] at hbase
          exact Option.noConfusion hbase
        | some b0 =>
          obtain ⟨hbne, bpo, hbpo, hbw⟩ := hdel b0 hdd hro hidw
          obtain ⟨bpo', hbpo', hbase'⟩ := (write_object_select_base hsel).2 b0
            (by rw [hpo3]; exact hdd)
          have hbb : bpo' = bpo := by
            rw [update_entry_ne st2 i b0 hbne, hbpo] at hbpo'
            exact (Option.some.inj hbpo').symm
          subst hbb
          rw [hbase'] at hbase
          have hb2 : b = bpo'.id := (Option.some.inj hbase).symm
          subst hb2
          exact hidw b0 bpo' hbpo hbw
      · intro k pk hk hwk
        rw [hrecs, update_entry_recs, List.map_append, List.mem_append]
        by_cases hki : k = i
        · subst hki
          right
          rw [hlist, h3i] at hk
          have hpk : pk = { poMid with written := true, recursing := false } :=
            Option.some.inj hk.symm
          simp [hpk, hpo3]
        · left
          rw [hlist, update_entry_ne st2 i k hki] at hk
          exact hidw k pk hk hwk

/-- How each `write_one` call evolves the writer state, by induction on
the recursion fuel: the state only grows monotonically (`wext`); entries
being recursed into elsewhere are untouched; a successful non-recursive
return leaves entry `i` written; a recursive status returns the state
unchanged; and any successful return preserves the trace invariants
`recs_ok` and `ids_written`. -/
theorem write_one_spec (E : Ext) :
    ∀ (fuel : Nat) (st : WriteState) (i : Nat) (st' : WriteState)
      (r : Except Unit WStatus),
      write_one E fuel st i = (st', r) →
      (wext st st' ∧
       (∀ (k : Nat) (pk : Pobject), k ≠ i → st.pb.object_list[k]? = some pk →
          pk.recursing = true → st'.pb.object_list[k]? = some pk) ∧
       (∀ s, r = .ok s → s ≠ WStatus.recursive →
          (st'.pb.object_list[i]?).map Pobject.written = some true) ∧
       (r = .ok WStatus.recursive → st' = st) ∧
       (∀ s, r = .ok s → recs_ok st.recs → ids_written st →
          recs_ok st'.recs ∧ ids_written st')) := by
  intro fuel
  induction fuel with
  | zero =>
    intro st i st' r h
    unfold write_one at h
    injection h with h1 h2
    subst h1
    refine ⟨wext_refl _, fun k pk _ hk _ => hk, ?_, ?_, ?_⟩
    · intro s hs; rw [← h2] at hs; all_goals exact Except.noConfusion hs
    · intro hs; rw [← h2] at hs; all_goals exact Except.noConfusion hs
    · intro s hs; rw [← h2] at hs; all_goals exact Except.noConfusion hs
  | succ fuel ih =>
    intro st i st' r h
    unfold write_one at h
    cases hpo : st.pb.object_list[i]? with
    | none =>
      simp only [hpo] at h
      injection h with h1 h2
      subst h1
      refine ⟨wext_refl _, fun k pk _ hk _ => hk, ?_, ?_, ?_⟩
      · intro s hs; rw [← h2] at hs; all_goals exact Except.noConfusion hs
      · intro hs; rw [← h2] at hs; all_goals exact Except.noConfusion hs
      · intro s hs; rw [← h2] at hs; all_goals exact Except.noConfusion hs
    | some po =>
      simp only [hpo] at h
      by_cases hrec : po.recursing
      · rw [if_pos hrec] at h
        injection h with h1 h2
        subst h1
        refine ⟨wext_refl _, fun k pk _ hk _ => hk, ?_, fun _ => rfl, ?_⟩
        · intro s hs hsne
          rw [← h2] at hs
          all_goals (injection hs with hss; exact absurd hss.symm hsne)
        · intro s _ hro hidw
          exact ⟨hro, hidw⟩
      · rw [if_neg hrec] at h
        by_cases hwr : po.written
        · rw [if_pos hwr] at h
          injection h with h1 h2
          subst h1
          refine ⟨wext_refl _, fun k pk _ hk _ => hk, ?_, ?_, ?_⟩
          · intro s _ _
            rw [hpo]
            simp [hwr]
          · intro hs
            rw [← h2] at hs
            all_goals (injection hs with hss; exact WStatus.noConfusion hss)
          · intro s _ hro hidw
            exact ⟨hro, hidw⟩
        · rw [if_neg hwr] at h
          cases hdel0 : po.delta with
          | none =>
            simp only [hdel0] at h
            have hdelA : ∀ b : Nat, po.delta = some b → recs_ok st.recs →
                ids_written st → b ≠ i ∧ ∃ bpo : Pobject,
                  st.pb.object_list[b]? = some bpo ∧ bpo.written = true := by
              intro b hb
              rw [hdel0] at hb
              exact Option.noConfusion hb
            cases hwo : write_object E (update_entry st i
                (fun p => { p with written := true, recursing := false })) i with
            | mk st4 wb =>
              simp only [hwo] at h
              obtain ⟨t1, t2, t3, t4⟩ := write_one_tail E st i po hpo hdelA st4 wb hwo
              cases wb with
              | true =>
                injection h with h1 h2
                subst h1
                refine ⟨t1, ?_, ?_, ?_, ?_⟩
                · intro k pk hkne hk hkrec
                  rw [t2 k hkne]
                  exact hk
                · intro s _ _
                  exact t3 rfl
                · intro hs
                  rw [← h2] at hs
                  all_goals (injection hs with hss; exact WStatus.noConfusion hss)
                · intro s _ hro hidw
                  exact t4 rfl hro hidw
              | false =>
                injection h with h1 h2
                subst h1
                refine ⟨t1, ?_, ?_, ?_, ?_⟩
                · intro k pk hkne hk hkrec
                  rw [t2 k hkne]
                  exact hk
                · intro s hs; rw [← h2] at hs; all_goals exact Except.noConfusion hs
                · intro hs; rw [← h2] at hs; all_goals exact Except.noConfusion hs
                · intro s hs; rw [← h2] at hs; all_goals exact Except.noConfusion hs
          | some b =>
            simp only [hdel0] at h
            have h1i := @update_entry_eq st i
              (fun p => { p with recursing := true }) po hpo
            cases hcall : write_one E fuel
                (update_entry st i (fun p => { p with recursing := true })) b with
            | mk st2' res =>
              simp only [hcall] at h
              obtain ⟨ihw, ihrec, ihstat, ihrecv, ihwo⟩ := ih _ b _ _ hcall
              have hupR : wext st (update_entry st i
                  (fun p => { p with recursing := true })) :=
                wext_update st i _ (fun p => rfl) (fun p hp => hp)
              cases res with
              | error e =>
                injection h with h1 h2
                subst h1
                refine ⟨wext_trans hupR ihw, ?_, ?_, ?_, ?_⟩
                · intro k pk hkne hk hkrec
                  have hk1 : (update_entry st i
                      (fun p => { p with recursing := true })).pb.object_list[k]?
                      = some pk := by
                    rw [update_entry_ne st i k hkne]
                    exact hk
                  by_cases hkb : k = b
                  · subst hkb
                    obtain ⟨hse, -⟩ := write_one_recursing fuel hk1 hkrec hcall
                    rw [hse]
                    exact hk1
                  · exact ihrec k pk hkb hk1 hkrec
                · intro s hs; rw [← h2] at hs; all_goals exact Except.noConfusion hs
                · intro hs; rw [← h2] at hs; all_goals exact Except.noConfusion hs
                · intro s hs; rw [← h2] at hs; all_goals exact Except.noConfusion hs
              | ok ws =>
                cases ws with
                | recursive =>
                  have hse : st2' = update_entry st i
                      (fun p => { p with recursing := true }) := ihrecv rfl
                  have h2i : (update_entry st2' i
                      (fun p => { p with delta := none })).pb.object_list[i]?
                      = some { { po with recursing := true } with delta := none } := by
                    rw [hse]
                    exact @update_entry_eq _ i (fun p => { p with delta := none })
                      { po with recursing := true } h1i
                  have hdelA : ∀ b' : Nat,
                      ({ { po with recursing := true } with delta := none }
                        : Pobject).delta = some b' →
                      recs_ok (update_entry st2' i
                        (fun p => { p with delta := none })).recs →
                      ids_written (update_entry st2' i
                        (fun p => { p with delta := none })) →
                      b' ≠ i ∧ ∃ bpo : Pobject,
                        (update_entry st2' i
                          (fun p => { p with delta := none })).pb.object_list[b']?
                          = some bpo ∧ bpo.written = true := by
                    intro b' hb'
                    exact Option.noConfusion hb'
                  cases hwo : write_object E
                      (update_entry (update_entry st2' i
                        (fun p => { p with delta := none })) i
                        (fun p => { p with written := true, recursing := false })) i with
                  | mk st4 wb =>
                    simp only [hwo] at h
                    obtain ⟨t1, t2, t3, t4⟩ := write_one_tail E
                      (update_entry st2' i (fun p => { p with delta := none }))
                      i _ h2i hdelA st4 wb hwo
                    have hupD : wext st2' (update_entry st2' i
                        (fun p => { p with delta := none })) :=
                      wext_update st2' i _ (fun p => rfl) (fun p hp => hp)
                    have hwchain : wext st st4 :=
                      wext_trans (wext_trans hupR (hse ▸ wext_refl st2'))
                        (wext_trans hupD t1)
                    have hkpres : ∀ (k : Nat) (pk : Pobject), k ≠ i →
                        st.pb.object_list[k]? = some pk → pk.recursing = true →
                        st4.pb.object_list[k]? = some pk := by
                      intro k pk hkne hk hkrec
                      rw [t2 k hkne, update_entry_ne st2' i k hkne, hse,
                        update_entry_ne st i k hkne]
                      exact hk
                    cases wb with
                    | true =>
                      injection h with h1 h2
                      subst h1
                      refine ⟨hwchain, hkpres, ?_, ?_, ?_⟩
                      · intro s _ _
                        exact t3 rfl
                      · intro hs
                        rw [← h2] at hs
                        all_goals (injection hs with hss; exact WStatus.noConfusion hss)
                      · intro s _ hro hidw
                        have hro2 : recs_ok (update_entry st2' i
                            (fun p => { p with delta := none })).recs := by
                          rw [update_entry_recs, hse, update_entry_recs]
                          exact hro
                        have hidw1 : ids_written (update_entry st i
                            (fun p => { p with recursing := true })) :=
                          ids_written_update st i _ (fun p => rfl) (fun p => rfl) hidw
                        have hidw2 : ids_written (update_entry st2' i
                            (fun p => { p with delta := none })) := by
                          rw [hse]
                          exact ids_written_update _ i _ (fun p => rfl)
                            (fun p => rfl) hidw1
                        exact t4 rfl hro2 hidw2
                    | false =>
                      injection h with h1 h2
                      subst h1
                      refine ⟨hwchain, hkpres, ?_, ?_, ?_⟩
                      · intro s hs; rw [← h2] at hs; all_goals exact Except.noConfusion hs
                      · intro hs; rw [← h2] at hs; all_goals exact Except.noConfusion hs
                      · intro s hs; rw [← h2] at hs; all_goals exact Except.noConfusion hs
                | skip =>
                  have hbne : b ≠ i := by
                    intro hbi
                    subst hbi
                    obtain ⟨-, hd⟩ := write_one_recursing fuel h1i rfl hcall
                    rcases hd with hd | hd
                    · exact Except.noConfusion hd
                    · injection hd with hdd
                      exact WStatus.noConfusion hdd
                  have hMid : st2'.pb.object_list[i]?
                      = some { po with recursing := true } :=
                    ihrec i _ (fun he => hbne he.symm) h1i rfl
                  have hdelA : ∀ b' : Nat,
                      ({ po with recursing := true } : Pobject).delta = some b' →
                      recs_ok st2'.recs → ids_written st2' →
                      b' ≠ i ∧ ∃ bpo : Pobject,
                        st2'.pb.object_list[b']? = some bpo ∧ bpo.written = true := by
                    intro b' hb' hro2 hidw2
                    have hbb : b' = b := by
                      rw [show ({ po with recursing := true } : Pobject).delta
                        = po.delta from rfl, hdel0] at hb'
                      exact (Option.some.inj hb').symm
                    subst hbb
                    refine ⟨hbne, ?_⟩
                    have hmw := ihstat WStatus.skip rfl
                      (fun hn => WStatus.noConfusion hn)
                    cases hlb : st2'.pb.object_list[b']? with
                    | none => rw [hlb] at hmw; exact Option.noConfusion hmw
                    | some bpo =>
                      rw [hlb] at hmw
                      refine ⟨bpo, rfl, ?_⟩
                      simp only [Option.map_some'] at hmw
                      exact Option.some.inj hmw
                  cases hwo : write_object E (update_entry st2' i
                      (fun p => { p with written := true, recursing := false })) i with
                  | mk st4 wb =>
                    simp only [hwo] at h
                    obtain ⟨t1, t2, t3, t4⟩ := write_one_tail E st2' i _
                      hMid hdelA st4 wb hwo
                    have hwchain : wext st st4 :=
                      wext_trans (wext_trans hupR ihw) t1
                    have hkpres : ∀ (k : Nat) (pk : Pobject), k ≠ i →
                        st.pb.object_list[k]? = some pk → pk.recursing = true →
                        st4.pb.object_list[k]? = some pk := by
                      intro k pk hkne hk hkrec
                      have hk1 : (update_entry st i
                          (fun p => { p with recursing := true })).pb.object_list[k]?
                          = some pk := by
                        rw [update_entry_ne st i k hkne]
                        exact hk
                      by_cases hkb : k = b
                      · subst hkb
                        obtain ⟨-, hd⟩ := write_one_recursing fuel hk1 hkrec hcall
                        rcases hd with hd | hd
                        · exact Except.noConfusion hd
                        · injection hd with hdd
                          exact WStatus.noConfusion hdd
                      · rw [t2 k hkne]
                        exact ihrec k pk hkb hk1 hkrec
                    cases wb with
                    | true =>
                      injection h with h1 h2
                      subst h1
                      refine ⟨hwchain, hkpres, ?_, ?_, ?_⟩
                      · intro s _ _
                        exact t3 rfl
                      · intro hs
                        rw [← h2] at hs
                        all_goals (injection hs with hss; exact WStatus.noConfusion hss)
                      · intro s _ hro hidw
                        have hidw1 : ids_written (update_entry st i
                            (fun p => { p with recursing := true })) :=
                          ids_written_update st i _ (fun p => rfl) (fun p => rfl) hidw
                        obtain ⟨hro2, hidw2⟩ := ihwo WStatus.skip rfl hro hidw1
                        exact t4 rfl hro2 hidw2
                    | false =>
                      injection h with h1 h2
                      subst h1
                      refine ⟨hwchain, hkpres, ?_, ?_, ?_⟩
                      · intro s hs; rw [← h2] at hs; all_goals exact Except.noConfusion hs
                      · intro hs; rw [← h2] at hs; all_goals exact Except.noConfusion hs
                      · intro s hs; rw [← h2] at hs; all_goals exact Except.noConfusion hs
                | written =>
                  have hbne : b ≠ i := by
                    intro hbi
                    subst hbi
                    obtain ⟨-, hd⟩ := write_one_recursing fuel h1i rfl hcall
                    rcases hd with hd | hd
                    · exact Except.noConfusion hd
                    · injection hd with hdd
                      exact WStatus.noConfusion hdd
                  have hMid : st2'.pb.object_list[i]?
                      = some { po with recursing := true } :=
                    ihrec i _ (fun he => hbne he.symm) h1i rfl
                  have hdelA : ∀ b' : Nat,
                      ({ po with recursing := true } : Pobject).delta = some b' →
                      recs_ok st2'.recs → ids_written st2' →
                      b' ≠ i ∧ ∃ bpo : Pobject,
                        st2'.pb.object_list[b']? = some bpo ∧ bpo.written = true := by
                    intro b' hb' hro2 hidw2
                    have hbb : b' = b := by
                      rw [show ({ po with recursing := true } : Pobject).delta
                        = po.delta from rfl, hdel0] at hb'
                      exact (Option.some.inj hb').symm
                    subst hbb
                    refine ⟨hbne, ?_⟩
                    have hmw := ihstat WStatus.written rfl
                      (fun hn => WStatus.noConfusion hn)
                    cases hlb : st2'.pb.object_list[b']? with
                    | none => rw [hlb] at hmw; exact Option.noConfusion hmw
                    | some bpo =>
                      rw [hlb] at hmw
                      refine ⟨bpo, rfl, ?_⟩
                      simp only [Option.map_some'] at hmw
                      exact Option.some.inj hmw
                  cases hwo : write_object E (update_entry st2' i
                      (fun p => { p with written := true, recursing := false })) i with
                  | mk st4 wb =>
                    simp only [hwo] at h
                    obtain ⟨t1, t2, t3, t4⟩ := write_one_tail E st2' i _
                      hMid hdelA st4 wb hwo
                    have hwchain : wext st st4 :=
                      wext_trans (wext_trans hupR ihw) t1
                    have hkpres : ∀ (k : Nat) (pk : Pobject), k ≠ i →
                        st.pb.object_list[k]? = some pk → pk.recursing = true →
                        st4.pb.object_list[k]? = some pk := by
                      intro k pk hkne hk hkrec
                      have hk1 : (update_entry st i
                          (fun p => { p with recursing := true })).pb.object_list[k]?
                          = some pk := by
                        rw [update_entry_ne st i k hkne]
                        exact hk
                      by_cases hkb : k = b
                      · subst hkb
                        obtain ⟨-, hd⟩ := write_one_recursing fuel hk1 hkrec hcall
                        rcases hd with hd | hd
                        · exact Except.noConfusion hd
                        · injection hd with hdd
                          exact WStatus.noConfusion hdd
                      · rw [t2 k hkne]
                        exact ihrec k pk hkb hk1 hkrec
                    cases wb with
                    | true =>
                      injection h with h1 h2
                      subst h1
                      refine ⟨hwchain, hkpres, ?_, ?_, ?_⟩
                      · intro s _ _
                        exact t3 rfl
                      · intro hs
                        rw [← h2] at hs
                        all_goals (injection hs with hss; exact WStatus.noConfusion hss)
                      · intro s _ hro hidw
                        have hidw1 : ids_written (update_entry st i
                            (fun p => { p with recursing := true })) :=
                          ids_written_update st i _ (fun p => rfl) (fun p => rfl) hidw
                        obtain ⟨hro2, hidw2⟩ := ihwo WStatus.written rfl hro hidw1
                        exact t4 rfl hro2 hidw2
                    | false =>
                      injection h with h1 h2
                      subst h1
                      refine ⟨hwchain, hkpres, ?_, ?_, ?_⟩
                      · intro s hs; rw [← h2] at hs; all_goals exact Except.noConfusion hs
                      · intro hs; rw [← h2] at hs; all_goals exact Except.noConfusion hs
                      · intro s hs; rw [← h2] at hs; all_goals exact Except.noConfusion hs

/-- The record loop: starting from an empty pending buffer, a successful
pass keeps the buffer empty, only appends to the hash accumulator, keeps
delivered output equal to the accumulator, and preserves the trace
invariants. -/
theorem write_pack_loop_spec (E : Ext) :
    ∀ (order : List Nat) (st st' : WriteState),
      write_pack_loop E order st = (st', true) → st.buf = [] →
      (st'.buf = [] ∧
       (∃ rest, st'.hacc = st.hacc ++ rest) ∧
       (∀ C : List Nat, C ++ st.out = st.hacc → C ++ st'.out = st'.hacc) ∧
       (recs_ok st.recs → ids_written st → recs_ok st'.recs ∧ ids_written st')) := by
  intro order
  induction order with
  | nil =>
    intro st st' h hbuf
    injection h with h1 h2
    subst h1
    exact ⟨hbuf, ⟨[], by simp⟩, fun C ho => ho, fun hro hidw => ⟨hro, hidw⟩⟩
  | cons i rest ih =>
    intro st st' h hbuf
    unfold write_pack_loop at h
    cases hw1 : write_one E (st.pb.object_list.length + 2) st i with
    | mk st1 res =>
      simp only [hw1] at h
      cases res with
      | error e =>
        injection h with h1 h2
        exact Bool.noConfusion h2
      | ok s =>
        have h2 : (if E.sink st1.buf then
            write_pack_loop E rest { st1 with out := st1.out ++ st1.buf, buf := [] }
          else (st1, false)) = (st', true) := h
        by_cases hsink : E.sink st1.buf
        · rw [if_pos hsink] at h2
          obtain ⟨hwx, hrecp, hstat, hrecv, hwop⟩ :=
            write_one_spec E _ st i st1 (.ok s) hw1
          obtain ⟨hlen, hout, ⟨app, hbufa, hacca⟩, hrext, hid, hwmono⟩ := hwx
          obtain ⟨ib, ⟨rest2, ir⟩, io, iw⟩ := ih _ st' h2 rfl
          refine ⟨ib, ⟨app ++ rest2, ?_⟩, ?_, ?_⟩
          · rw [ir]
            simp [hacca]
          · intro C ho
            apply io C
            show C ++ (st1.out ++ st1.buf) = st1.hacc
            rw [hout, hbufa, hacca, hbuf, ← ho]
            simp
          · intro hro hidw
            obtain ⟨hro1, hidw1⟩ := hwop s rfl hro hidw
            exact iw hro1 hidw1
        · rw [if_neg hsink] at h2
          injection h2 with h3 h4
          exact Bool.noConfusion h4

theorem pack_header_length (n : Nat) : (pack_header n).length = 12 := by
  simp [pack_header, be32]

/-- On a session whose hash context is empty (no prior build has fed it),
a successful `write_pack` delivers exactly the hashed prefix followed by
its digest, and the prefix begins with the 12-byte pack header for the
registry size. -/
theorem write_pack_stream {E : Ext} {pb pb' : Packbuilder}
    {stream : List Nat} {recs : List (Oid × Option Oid)}
    (hfresh : pb.hctx = [])
    (h : write_pack E pb = (pb', .ok (stream, recs))) :
    ∃ pfx, stream = pfx ++ E.hash_final pfx ∧
      pfx.take 12 = pack_header pb.object_list.length := by
  unfold write_pack at h
  cases hcw : compute_write_order E.tags pb with
  | none =>
    simp only [hcw] at h
    injection h with h1 h2
    exact Except.noConfusion h2
  | some owpb =>
    obtain ⟨order, pb1⟩ := owpb
    simp only [hcw] at h
    obtain ⟨es, hshape⟩ := compute_write_order_shape hcw
    have hctx1 : pb1.hctx = [] := by
      rw [hshape]
      exact hfresh
    by_cases hsink : E.sink (pack_header pb.object_list.length)
    · rw [if_pos hsink] at h
      cases hloop : write_pack_loop E order
          { pb := pb1, buf := [], out := pack_header pb.object_list.length,
            hacc := pb1.hctx ++ pack_header pb.object_list.length, recs := [] } with
      | mk stF okb =>
        simp only [hloop] at h
        cases okb with
        | false =>
          injection h with h1 h2
          exact Except.noConfusion h2
        | true =>
          have hm : (if E.sink (E.hash_final stF.hacc) then
              ({ stF.pb with hctx := stF.hacc },
                Except.ok (stF.out ++ E.hash_final stF.hacc, stF.recs))
            else ({ stF.pb with hctx := stF.hacc }, Except.error ()))
              = (pb', Except.ok (stream, recs)) := h
          by_cases hsink2 : E.sink (E.hash_final stF.hacc)
          · rw [if_pos hsink2] at hm
            injection hm with h1 h2
            injection h2 with h3
            have hstream : stream = stF.out ++ E.hash_final stF.hacc :=
              (congrArg Prod.fst h3).symm
            obtain ⟨hb, ⟨rest2, hr⟩, hoinv, -⟩ :=
              write_pack_loop_spec E order _ stF hloop rfl
            have hoe : pb1.hctx ++ stF.out = stF.hacc := hoinv pb1.hctx rfl
            rw [hctx1, List.nil_append] at hoe
            refine ⟨stF.hacc, ?_, ?_⟩
            · rw [hstream, hoe]
            · rw [hr]
              show ((pb1.hctx ++ pack_header pb.object_list.length) ++ rest2).take 12 =
                pack_header pb.object_list.length
              rw [hctx1]
              simp [pack_header, be32]
          · rw [if_neg hsink2] at hm
            injection hm with h1 h2
            exact Except.noConfusion h2
    · rw [if_neg hsink] at h
      injection h with h1 h2
      exact Except.noConfusion h2

/-! ## C1: the stream begins with the 12-byte header and ends with the digest -/

/-- C1 (amended): for every successful build operation
(`git_packbuilder_send`, `git_packbuilder_write_buf` or
`git_packbuilder_write`, given a 20-byte rolling hash) on a session whose
hash context is still empty — its first build — the emitted byte stream
splits as a prefix followed by the digest of exactly that prefix (so the
pack header, the per-object headers, the base identifiers and the
compressed payloads are all hashed), the stream begins with the 12-byte
header "PACK", big-endian version 2 and the big-endian 32-bit count of
registered objects, and it ends with the 20-byte digest.  The freshness
hypothesis cannot be dropped: the session hash context `pb->ctx` is
created once and never reset, so on any later build of the same session
the delivered digest also covers the bytes of the earlier builds and the
stream no longer ends with the digest of its own preceding bytes (see
the counterexample). -/
theorem c1_stream_format (E : Ext) (pb pb' : Packbuilder)
    (stream : List Nat) (recs : List (Oid × Option Oid))
    (hH : ∀ l : List Nat, (E.hash_final l).length = 20)
    (hfresh : pb.hctx = [])
    (h : git_packbuilder_send E pb = (pb', .ok (stream, recs)) ∨
         git_packbuilder_write_buf E pb = (pb', .ok (stream, recs)) ∨
         git_packbuilder_write E pb = (pb', .ok (stream, recs))) :
    ∃ pfx : List Nat,
      stream = pfx ++ E.hash_final pfx ∧
      stream.take 12 = pack_header pb.object_list.length ∧
      (E.hash_final pfx).length = 20 ∧
      stream.drop (stream.length - 20) = E.hash_final pfx := by
  have key : ∃ pb2 : Packbuilder,
      write_pack E (prepare_pack E pb).1 = (pb2, .ok (stream, recs)) := by
    rcases h with h | h | h
    · unfold git_packbuilder_send at h
      by_cases hp : (prepare_pack E pb).2
      · rw [if_pos hp] at h
        exact ⟨pb', h⟩
      · rw [if_neg hp] at h
        injection h with h1 h2
        exact Except.noConfusion h2
    · unfold git_packbuilder_write_buf at h
      by_cases hp : (prepare_pack E pb).2
      · rw [if_pos hp] at h
        exact ⟨pb', h⟩
      · rw [if_neg hp] at h
        injection h with h1 h2
        exact Except.noConfusion h2
    · unfold git_packbuilder_write at h
      by_cases hp : (prepare_pack E pb).2
      · rw [if_pos hp] at h
        by_cases hfo : E.file_open_ok
        · rw [if_pos hfo] at h
          cases hwp2 : write_pack E (prepare_pack E pb).1 with
          | mk pb2 res =>
            simp only [hwp2] at h
            cases res with
            | error e =>
              injection h with h1 h2
              exact Except.noConfusion h2
            | ok out2 =>
              have hm : (if E.file_commit_ok then (pb2, Except.ok out2)
                  else (pb2, Except.error ())) = (pb', Except.ok (stream, recs)) := h
              by_cases hfc : E.file_commit_ok
              · rw [if_pos hfc] at hm
                injection hm with h1 h2
                injection h2 with h3
                exact ⟨pb2, by rw [h3]⟩
              · rw [if_neg hfc] at hm
                injection hm with h1 h2
                exact Except.noConfusion h2
        · rw [if_neg hfo] at h
          injection h with h1 h2
          exact Except.noConfusion h2
      · rw [if_neg hp] at h
        injection h with h1 h2
        exact Except.noConfusion h2
  obtain ⟨pb2, hwp⟩ := key
  have hfresh1 : (prepare_pack E pb).1.hctx = [] :=
    (prepare_pack_hctx E pb).trans hfresh
  obtain ⟨pfx, hs, ht⟩ := write_pack_stream hfresh1 hwp
  rw [prepare_pack_length E pb] at ht
  have hp12 : 12 ≤ pfx.length := by
    have hl := congrArg List.length ht
    rw [List.length_take, pack_header_length] at hl
    omega
  refine ⟨pfx, hs, ?_, hH pfx, ?_⟩
  · rw [hs, List.take_append_eq_append_take, ht]
    have h0 : 12 - pfx.length = 0 := by omega
    rw [h0]
    simp
  · rw [hs, List.length_append, hH pfx]
    have h0 : pfx.length + 20 - 20 = pfx.length := by omega
    rw [h0]
    exact List.drop_left pfx _

/-- C1 witness: the first build of a fresh empty session delivers exactly
the 12-byte header followed by the 20-byte digest of the header. -/
theorem c1_stream_format_witness :
    ∃ pfx : List Nat,
      exStream0 = pfx ++ exExt.hash_final pfx ∧
      exStream0.take 12 = pack_header exPb0.object_list.length ∧
      (exExt.hash_final pfx).length = 20 ∧
      exStream0.drop (exStream0.length - 20) = exExt.hash_final pfx :=
  c1_stream_format exExt exPb0 (git_packbuilder_send exExt exPb0).1 exStream0 []
    (fun _ => rfl) rfl (Or.inl rfl)

/-- C1 counterexample: two successful builds of the same (empty) session
against a hash whose digest records how many bytes were fed.  The first
stream ends with the digest of its own 12 header bytes, and those bytes
stay in the session hash context; the second build's digest is computed
over 24 bytes — both headers — so the second stream does not end with the
digest of its own preceding bytes: no prefix of it satisfies
`stream = pfx ++ hash_final pfx`. -/
theorem c1_second_build_digest :
    exSendH1.2 = .ok (exStreamH1, []) ∧
    exStreamH1.drop 12 = exExtH.hash_final (exStreamH1.take 12) ∧
    exPbH1.hctx = pack_header 0 ∧
    exSendH2.2 = .ok (exStreamH2, []) ∧
    exStreamH2.take 12 = pack_header exPbH1.object_list.length ∧
    exStreamH2.drop 12 = exExtH.hash_final (pack_header 0 ++ pack_header 0) ∧
    (∀ l : List Nat, (exExtH.hash_final l).length = 20) ∧
    ¬ ∃ pfx : List Nat, exStreamH2 = pfx ++ exExtH.hash_final pfx := by
  refine ⟨rfl, by decide, by decide, rfl, by decide, by decide, fun l => rfl, ?_⟩
  rintro ⟨pfx, hp⟩
  have hlen : exStreamH2.length = pfx.length + 20 := by
    rw [hp, List.length_append]
    rfl
  have hslen : exStreamH2.length = 32 := by decide
  have hplen : pfx.length = 12 := by omega
  have hpfx : pfx = exStreamH2.take 12 := by
    rw [hp, ← hplen, List.take_left]
  rw [hpfx] at hp
  revert hp
  decide

/-! ## C2: REF_DELTA bases precede their deltas in the stream -/

/-- C2 (amended): on a session none of whose entries is already marked
written, every successful `write_pack` run emits streams in which each
REF_DELTA record's 20-byte base identifier equals the id of a record at
a strictly earlier position of the stream — `write_one` writes the base
first and severs the link of an entry found mid-recursion.  The original
claim, quantified over every successfully written stream, fails: a
session left partially written by an earlier sink failure can emit a
REF_DELTA whose base was only written in the earlier, failed stream (see
the counterexample). -/
theorem c2_delta_after_base (E : Ext) (pb pb' : Packbuilder)
    (stream : List Nat) (recs : List (Oid × Option Oid))
    (hunw : ∀ po ∈ pb.object_list, po.written = false)
    (h : write_pack E pb = (pb', .ok (stream, recs))) :
    recs_ok recs := by
  unfold write_pack at h
  cases hcw : compute_write_order E.tags pb with
  | none =>
    simp only [hcw] at h
    injection h with h1 h2
    exact Except.noConfusion h2
  | some owpb =>
    obtain ⟨order, pb1⟩ := owpb
    simp only [hcw] at h
    by_cases hsink : E.sink (pack_header pb.object_list.length)
    · rw [if_pos hsink] at h
      cases hloop : write_pack_loop E order
          { pb := pb1, buf := [], out := pack_header pb.object_list.length,
            hacc := pb1.hctx ++ pack_header pb.object_list.length, recs := [] } with
      | mk stF okb =>
        simp only [hloop] at h
        cases okb with
        | false =>
          injection h with h1 h2
          exact Except.noConfusion h2
        | true =>
          have hm : (if E.sink (E.hash_final stF.hacc) then
              ({ stF.pb with hctx := stF.hacc },
                Except.ok (stF.out ++ E.hash_final stF.hacc, stF.recs))
            else ({ stF.pb with hctx := stF.hacc }, Except.error ()))
              = (pb', Except.ok (stream, recs)) := h
          by_cases hsink2 : E.sink (E.hash_final stF.hacc)
          · rw [if_pos hsink2] at hm
            injection hm with h1 h2
            injection h2 with h3
            have hrecs : recs = stF.recs := (congrArg Prod.snd h3).symm
            have hsc := compute_write_order_core hcw
            have hwf : ∀ (k : Nat) (pk : Pobject),
                pb1.object_list[k]? = some pk → pk.written = false := by
              intro k pk hk
              have hfield := same_core_field Pobject.written (fun p => rfl) hsc k
              rw [hk] at hfield
              cases hk0 : pb.object_list[k]? with
              | none =>
                rw [hk0] at hfield
                exact absurd hfield (by simp)
              | some p0 =>
                rw [hk0] at hfield
                simp only [Option.map_some'] at hfield
                rw [Option.some.inj hfield]
                refine hunw p0 ?_
                have hlt := (List.getElem?_eq_some_iff.mp hk0).1
                have := List.getElem_mem (l := pb.object_list) (n := k) hlt
                rw [(List.getElem?_eq_some_iff.mp hk0).2] at this
                exact this
            have hro0 : recs_ok ([] : List (Oid × Option Oid)) := by
              intro j x b hj
              rw [List.getElem?_nil] at hj
              exact Option.noConfusion hj
            have hidw0 : ids_written
                { pb := pb1, buf := [], out := pack_header pb.object_list.length,
                  hacc := pack_header pb.object_list.length, recs := [] } := by
              intro k pk hk hw
              rw [hwf k pk hk] at hw
              exact Bool.noConfusion hw
            obtain ⟨-, -, -, iw⟩ := write_pack_loop_spec E order _ stF hloop rfl
            obtain ⟨hroF, -⟩ := iw hro0 hidw0
            rw [hrecs]
            exact hroF
          · rw [if_neg hsink2] at hm
            injection hm with h1 h2
            exact Except.noConfusion h2
    · rw [if_neg hsink] at h
      injection h with h1 h2
      exact Except.noConfusion h2

/-- C2 witness: the fresh two-blob session's stream carries the full blob
first and the delta second, so the record trace satisfies `recs_ok`. -/
theorem c2_delta_after_base_witness : recs_ok exRecs :=
  c2_delta_after_base exExt exPb3 exPbW exStream exRecs (by decide) rfl

/-- C2 counterexample: three blobs are inserted into a fresh session and
built against a sink that rejects exactly the 47-byte chunk carrying the
99-byte blob's delta record.  The first build fails at that chunk, but
only after the 100-byte blob and the 99-byte blob were marked written in
the session.  Rebuilding the same (mutated) session succeeds and emits a
single record: a REF_DELTA for the 98-byte blob whose base identifier
(the 100-byte blob's id) matches no earlier record of this second stream
— refuting the claim for this successfully written pack stream. -/
theorem c2_rebuild_counterexample :
    (∀ po ∈ exPbF0.object_list, po.written = false) ∧
    exBuildF1.2 = .error () ∧
    exPbF1.object_list.map Pobject.written = [true, true, false] ∧
    exBuildF2.2 = .ok (exStreamF2, exRecsF2) ∧
    exRecsF2 = [(exOid4, some exOid1)] ∧
    exOid1 ∉ exRecsF2.map Prod.fst ∧
    ¬ recs_ok exRecsF2 := by
  refine ⟨by decide, rfl, by decide, rfl, by decide, by decide, ?_⟩
  intro hro
  obtain ⟨j, y, hj, -, -⟩ := hro 0 exOid4 exOid1 (by decide)
  omega

end PackObjects
